import Mathlib

/-!
# unixsignal::signalfd: a verification development

Shallow embedding of `include/unixsignal/signalfd.hpp`.

The class template `signalfd<S1, ..., S30>` talks to the operating system
through `pipe`, `fcntl`, `sigaction`, `close` and `write`.  The part of the
process state these calls act on is the record `World`; each call is a pure
function on `World` that follows its POSIX description.  What POSIX leaves to
the platform (descriptor limit, which signal numbers `sigaction` accepts and
what it stores for a disposition, injected failures, what a successful call
does to `errno`) and whether `assert`
is compiled in are fields of `OS`; the general theorems hold for every `OS`
and every `World`, the examples use the platform `linux` and the state `fresh`.

The template argument list is a `List Int` (`S`), the static member `m_wfd` of
the instantiation under study is a field of `World`.
-/

namespace unixsignal

/-! ## Platform constants (Linux values of the system headers) -/

def EBADF : Int := 9
def EAGAIN : Int := 11
def EINVAL : Int := 22
def ENFILE : Int := 23
def EMFILE : Int := 24
def EPIPE : Int := 32

def F_GETFD : Int := 1
def F_SETFD : Int := 2
def F_GETFL : Int := 3
def F_SETFL : Int := 4

def FD_CLOEXEC : Nat := 1
def O_RDONLY : Nat := 0
def O_WRONLY : Nat := 1
def O_NONBLOCK : Nat := 2048
/-- The file status flags `F_SETFL` is able to change (O_APPEND, O_NONBLOCK,
O_ASYNC, O_DIRECT, O_NOATIME); access mode and creation flags in the argument
are ignored. -/
def SETFL_MASK : Nat := 1024 + 2048 + 8192 + 16384 + 262144
def SA_SIGINFO : Nat := 4
/-- The flag the C library adds to every disposition it installs (x86 Linux). -/
def SA_RESTORER : Nat := 67108864

/-! ## Data model -/

/-- The handler field of a disposition (`sa_handler` / `sa_sigaction`).
`on_signal` is the address of `signalfd<...>::on_signal` of the instantiation
under study. -/
inductive Handler where
  | SIG_DFL
  | SIG_IGN
  | on_signal
  | other (addr : Nat)
deriving DecidableEq, Repr

/-- A `struct sigaction`: handler, mask (bit `s - 1` for signal `s`), flags
(a set of bits). -/
structure sigaction_t where
  sa_handler : Handler
  sa_mask : Nat
  sa_flags : Nat
deriving DecidableEq, Repr

/-- The all-zero `struct sigaction` that `memset` produces. -/
def sigaction_t.zero : sigaction_t := ⟨Handler.SIG_DFL, 0, 0⟩

/-- A `siginfo_t`: the signal number and the rest of the payload. -/
structure siginfo_t where
  si_signo : Int
  si_errno : Int
  si_code : Int
  si_payload : List Int
deriving DecidableEq, Repr

/-- One atomic write sitting in a pipe buffer: its byte count and its data. -/
structure Record where
  nbytes : Nat
  data : siginfo_t
deriving DecidableEq, Repr

/-- A pipe: buffered writes (oldest first) and which ends are still open. -/
structure Pipe where
  buf : List Record
  reader_open : Bool
  writer_open : Bool
deriving DecidableEq, Repr

/-- Bytes buffered in a pipe. -/
def Pipe.used (p : Pipe) : Nat := (p.buf.map Record.nbytes).sum

/-- What an open descriptor refers to. -/
inductive FdKind where
  | pipe_r (id : Nat)
  | pipe_w (id : Nat)
  | other
deriving DecidableEq, Repr

/-- An open descriptor: its kind, the file status flags (`F_GETFL`) and the
descriptor flags (`F_GETFD`). -/
structure FdEntry where
  kind : FdKind
  status : Nat
  fdflags : Nat
deriving DecidableEq, Repr

/-- The system calls the class performs. -/
inductive Syscall where
  | pipe
  | fcntl (fd : Int) (cmd : Int) (arg : Nat)
  | sigaction (sig : Int) (act : sigaction_t)
  | close (fd : Int)
  | write (fd : Int) (n : Nat)
deriving DecidableEq, Repr

/-- The name under which the class reports a failed call. -/
def Syscall.name : Syscall → String
  | Syscall.pipe => "pipe()"
  | Syscall.fcntl _ _ _ => "fcntl()"
  | Syscall.sigaction _ _ => "sigaction()"
  | Syscall.close _ => "close()"
  | Syscall.write _ _ => "write()"

/-- One performed call: the call, its return value, `errno` right after it. -/
structure Event where
  call : Syscall
  ret : Int
  err : Int
deriving DecidableEq, Repr

/-- The process state the class acts on. -/
structure World where
  fds : Int → Option FdEntry
  pipes : Nat → Pipe
  npipes : Nat
  disp : Int → sigaction_t
  errno : Int
  m_wfd : Int
  trace : List Event

/-- Platform behaviour that POSIX leaves open. -/
structure OS where
  /-- Descriptors are numbered below this limit (RLIMIT_NOFILE). -/
  fd_limit : Nat
  /-- When `some e`: `pipe` fails with `errno = e` for a reason other than the
  descriptor limit (ENFILE, the system-wide file table is full). -/
  pipe_fault : Option Int
  /-- When `some e` for `(fd, cmd)`: that `fcntl` call fails with `errno = e`. -/
  fcntl_fault : Int → Int → Option Int
  /-- Signal numbers for which `sigaction` accepts a new disposition
  (valid and catchable); for the others it fails with EINVAL. -/
  sig_ok : Int → Bool
  /-- Bits that `sigaction` adds to the `sa_flags` it stores (the C library sets
  `SA_RESTORER` on x86 Linux; zero where nothing is added). -/
  added_flags : Nat
  /-- Bits that `sigaction` removes from the `sa_mask` it stores: the signals
  that cannot be blocked (SIGKILL, SIGSTOP). -/
  unblockable : Nat
  /-- Signal numbers `sigaddset` accepts. -/
  sigset_ok : Int → Bool
  /-- Capacity of a pipe buffer in bytes. -/
  pipe_capacity : Nat
  /-- Largest write that is guaranteed atomic. -/
  PIPE_BUF : Nat
  /-- The value of `sizeof(siginfo_t)`. -/
  sizeof_siginfo : Nat
  /-- What a successful call leaves in `errno`, from the value before it
  (POSIX allows a successful call to change `errno`). -/
  clobber : Int → Int
  /-- Whether the class is compiled with `NDEBUG`, which turns `assert` into
  nothing. -/
  NDEBUG : Bool

/-- Table update. -/
def upd {α β : Type} [DecidableEq α] (f : α → β) (k : α) (v : β) : α → β :=
  fun x => if x = k then v else f x

/-- Completes a call: sets `errno` and appends the call to the trace. -/
def World.done (w : World) (c : Syscall) (ret : Int) (err : Int) : World :=
  { w with errno := err, trace := w.trace ++ [⟨c, ret, err⟩] }

/-- Whether a descriptor is open. -/
def World.is_open (w : World) (fd : Int) : Bool := (w.fds fd).isSome

/-- Whether the close-on-exec descriptor flag of `fd` is set. -/
def World.close_on_exec (w : World) (fd : Int) : Bool :=
  match w.fds fd with
  | some e => e.fdflags &&& FD_CLOEXEC != 0
  | none => false

/-- Whether `O_NONBLOCK` is set in the file status flags of `fd`. -/
def World.nonblocking (w : World) (fd : Int) : Bool :=
  match w.fds fd with
  | some e => e.status &&& O_NONBLOCK != 0
  | none => false

/-- The records waiting in the pipe whose read end is `fd`. -/
def World.readable (w : World) (fd : Int) : List Record :=
  match w.fds fd with
  | some ⟨FdKind.pipe_r id, _, _⟩ => (w.pipes id).buf
  | _ => []

/-! ## The system calls -/

/-- The unused descriptor numbers below the limit, in increasing order. -/
def free_fds (os : OS) (w : World) : List Int :=
  ((List.range os.fd_limit).map Int.ofNat).filter (fun fd => (w.fds fd).isNone)

/-- The call `pipe(p)`: on success the two lowest unused descriptors become the
read end `p[0]` (O_RDONLY) and the write end `p[1]` (O_WRONLY) of a new empty
pipe, with no descriptor flag set; it fails with EMFILE when fewer than two
descriptors are available, and with the injected error when the system table
is full. -/
def sys_pipe (os : OS) (w : World) : World × Option (Int × Int) :=
  match os.pipe_fault with
  | some e => (w.done Syscall.pipe (-1) e, none)
  | none =>
    match free_fds os w with
    | r :: wr :: _ =>
      let w1 : World :=
        { w with
          fds := upd (upd w.fds r (some ⟨FdKind.pipe_r w.npipes, O_RDONLY, 0⟩))
                   wr (some ⟨FdKind.pipe_w w.npipes, O_WRONLY, 0⟩)
          pipes := upd w.pipes w.npipes ⟨[], true, true⟩
          npipes := w.npipes + 1 }
      (w1.done Syscall.pipe 0 (os.clobber w.errno), some (r, wr))
    | _ => (w.done Syscall.pipe (-1) EMFILE, none)

/-- The call `fcntl(fd, cmd, arg)` for the four commands on flags.  `F_GETFL`
and `F_SETFL` act on the file status flags, `F_GETFD` and `F_SETFD` on the
descriptor flags; `F_SETFL` changes only the bits of `SETFL_MASK`. -/
def sys_fcntl (os : OS) (w : World) (fd : Int) (cmd : Int) (arg : Nat) : World × Int :=
  let c := Syscall.fcntl fd cmd arg
  match os.fcntl_fault fd cmd with
  | some e => (w.done c (-1) e, -1)
  | none =>
    match w.fds fd with
    | none => (w.done c (-1) EBADF, -1)
    | some e =>
      if cmd = F_GETFL then
        (w.done c (Int.ofNat e.status) (os.clobber w.errno), Int.ofNat e.status)
      else if cmd = F_SETFL then
        let st := (e.status ^^^ (e.status &&& SETFL_MASK)) ||| (arg &&& SETFL_MASK)
        (({ w with fds := upd w.fds fd (some { e with status := st }) } : World).done c 0
          (os.clobber w.errno), 0)
      else if cmd = F_GETFD then
        (w.done c (Int.ofNat e.fdflags) (os.clobber w.errno), Int.ofNat e.fdflags)
      else if cmd = F_SETFD then
        (({ w with fds := upd w.fds fd (some { e with fdflags := arg }) } : World).done c 0
          (os.clobber w.errno), 0)
      else (w.done c (-1) EINVAL, -1)

/-- The disposition `sigaction` stores when it is handed `act`: the handler as
given, the mask without the unblockable signals, the flags with the bits the
platform adds. -/
def OS.stored (os : OS) (act : sigaction_t) : sigaction_t :=
  ⟨act.sa_handler, act.sa_mask ^^^ (act.sa_mask &&& os.unblockable),
    act.sa_flags ||| os.added_flags⟩

/-- The call `sigaction(sig, &act, oldact)` with a non-null `act`: when the
signal number is accepted the disposition of `sig` becomes what the platform
stores for `act` (`OS.stored`) and the previous stored disposition is returned
as it is (stored through `oldact` by the caller when that pointer is not
null); otherwise the call fails with EINVAL and changes nothing.  Whether the
call is accepted depends on the signal number alone: EINVAL is its only error
besides EFAULT, and the class passes addresses of live objects. -/
def sys_sigaction (os : OS) (w : World) (sig : Int) (act : sigaction_t) :
    World × Int × sigaction_t :=
  if os.sig_ok sig then
    (({ w with disp := upd w.disp sig (os.stored act) } : World).done (Syscall.sigaction sig act) 0
      (os.clobber w.errno), 0, w.disp sig)
  else
    (w.done (Syscall.sigaction sig act) (-1) EINVAL, -1, sigaction_t.zero)

/-- The call `close(fd)`. -/
def sys_close (os : OS) (w : World) (fd : Int) : World × Int :=
  match w.fds fd with
  | none => (w.done (Syscall.close fd) (-1) EBADF, -1)
  | some e =>
    let pipes :=
      match e.kind with
      | FdKind.pipe_r id => upd w.pipes id { w.pipes id with reader_open := false }
      | FdKind.pipe_w id => upd w.pipes id { w.pipes id with writer_open := false }
      | FdKind.other => w.pipes
    (({ w with fds := upd w.fds fd none, pipes := pipes } : World).done (Syscall.close fd) 0
      (os.clobber w.errno), 0)

/-- The call `write(fd, data, n)` of one object of `n` bytes.  The result is
`none` when the call does not return (a blocking descriptor on a full pipe) or
when `n` exceeds `PIPE_BUF`, for which atomicity is not guaranteed.  On a pipe
a write of at most `PIPE_BUF` bytes is all or nothing: with room for `n` bytes
the record is appended, on a full pipe a non-blocking descriptor fails with
EAGAIN; without a reader the call fails with EPIPE (the SIGPIPE raised with it
is not part of this model).  A descriptor that is not a pipe takes the bytes. -/
def sys_write (os : OS) (w : World) (fd : Int) (data : siginfo_t) (n : Nat) :
    Option (World × Int) :=
  let c := Syscall.write fd n
  if os.PIPE_BUF < n then none
  else
    match w.fds fd with
    | none => some (w.done c (-1) EBADF, -1)
    | some e =>
      match e.kind with
      | FdKind.pipe_r _ => some (w.done c (-1) EBADF, -1)
      | FdKind.other => some (w.done c (Int.ofNat n) (os.clobber w.errno), Int.ofNat n)
      | FdKind.pipe_w id =>
        if (w.pipes id).reader_open = false then some (w.done c (-1) EPIPE, -1)
        else if (w.pipes id).used + n ≤ os.pipe_capacity then
          let p : Pipe := { w.pipes id with buf := (w.pipes id).buf ++ [⟨n, data⟩] }
          some (({ w with pipes := upd w.pipes id p } : World).done c
                  (Int.ofNat n) (os.clobber w.errno), Int.ofNat n)
        else if e.status &&& O_NONBLOCK != 0 then some (w.done c (-1) EAGAIN, -1)
        else none

/-- The library function `sigaddset(&set, sig)`: adds `sig` to the set, or
fails with EINVAL and leaves the set alone. -/
def sigaddset (os : OS) (w : World) (mask : Nat) (sig : Int) : World × Nat :=
  if os.sigset_ok sig then (w, mask ||| (1 <<< (sig - 1).toNat))
  else ({ w with errno := EINVAL }, mask)

/-! ## The class -/

/-- A `boost::system::system_error`: the error code and the `what` text. -/
structure system_error where
  code : Int
  what : String
deriving DecidableEq, Repr

/-- How a member function ends: it returns, it leaves by an exception, or a
failed `assert` aborts the process. -/
inductive Outcome (α : Type) where
  | ok (a : α)
  | throw (e : system_error)
  | abort
deriving DecidableEq, Repr

/-- The exception object `detail::throw_system_error(err, what)` throws. -/
def detail.throw_system_error (err : Int) (what : String) : system_error := ⟨err, what⟩

/-- The function `detail::set_file_flags(fd, flags)`; `some e` when it throws `e`. -/
def detail.set_file_flags (os : OS) (w : World) (fd : Int) (flags : Nat) :
    World × Option system_error :=
  let f := sys_fcntl os w fd F_GETFL 0
  if f.2 < 0 then (f.1, some (detail.throw_system_error f.1.errno "fcntl()"))
  else
    let s := sys_fcntl os f.1 fd F_SETFL (f.2.toNat ||| flags)
    if s.2 < 0 then (s.1, some (detail.throw_system_error s.1.errno "fcntl()"))
    else (s.1, none)

/-- Whether `assert(c)` lets execution continue. -/
def assert_passes (os : OS) (c : Bool) : Bool := os.NDEBUG || c

/-- The data members of a `signalfd` object: the `fd` fields of the two
`fdcloser` members and the array `m_oldact`. -/
structure signalfd where
  m_r : Int
  m_w : Int
  m_oldact : List sigaction_t
deriving DecidableEq, Repr

/-- The destructor `fdcloser::~fdcloser()` of a member whose field is `fd`. -/
def fdcloser.dtor (os : OS) (w : World) (fd : Int) : World := (sys_close os w fd).1

/-- The static constant `nsignals`: `(S1 > 0) + (S2 > 0) + ... + (S30 > 0)`. -/
def signalfd.nsignals (S : List Int) : Nat :=
  (S.map (fun s => if s > 0 then 1 else 0)).sum

/-- The array element `signals[i]`. -/
def signalfd.signals (S : List Int) (i : Nat) : Int := S.getD i 0

/-- The signal numbers the loops of the constructor and of the destructor
visit: `signals[0], ..., signals[nsignals - 1]`. -/
def signalfd.visited (S : List Int) : List Int :=
  (List.range (signalfd.nsignals S)).map (signalfd.signals S)

/-- The first loop of the constructor, from index `i` with `k` rounds to go:
`assert(signals[i] > 0); sigaddset(&act.sa_mask, signals[i])`.  The mask is
`none` when an assertion fails. -/
def signalfd.mask_loop (os : OS) (S : List Int) : Nat → Nat → World → Nat → World × Option Nat
  | 0, _, w, m => (w, some m)
  | k + 1, i, w, m =>
    if assert_passes os (signalfd.signals S i > 0) then
      let r := sigaddset os w m (signalfd.signals S i)
      signalfd.mask_loop os S k (i + 1) r.1 r.2
    else (w, none)

/-- The loop `while (i --> 0) sigaction(signals[i], &m_oldact[i], 0)`, entered
with the given value of `i`. -/
def signalfd.rollback (os : OS) (S : List Int) (oldact : List sigaction_t) : Nat → World → World
  | 0, w => w
  | i + 1, w =>
    signalfd.rollback os S oldact i
      (sys_sigaction os w (signalfd.signals S i) (oldact.getD i sigaction_t.zero)).1

/-- The second loop of the constructor, from index `i` with `k` rounds to go:
installs `act` for `signals[i]`, stores the previous disposition in
`m_oldact[i]`, and on a failed `sigaction` saves `errno`, rolls back and
throws. -/
def signalfd.install (os : OS) (S : List Int) (act : sigaction_t) :
    Nat → Nat → List sigaction_t → World → World × Outcome (List sigaction_t)
  | 0, _, oldact, w => (w, Outcome.ok oldact)
  | k + 1, i, oldact, w =>
    if assert_passes os (signalfd.signals S i > 0) then
      let r := sys_sigaction os w (signalfd.signals S i) act
      if r.2.1 < 0 then
        let errcode := r.1.errno
        (signalfd.rollback os S oldact i r.1,
          Outcome.throw (detail.throw_system_error errcode "sigaction()"))
      else signalfd.install os S act k (i + 1) (oldact.set i r.2.2) r.1
    else (w, Outcome.abort)

/-- Lines 57 to 66 of the constructor: creates the pipe, stores its ends in
`m_r.fd`, `m_w.fd` and `m_wfd`, and sets the flags.  The result carries the
values of `m_r.fd` and `m_w.fd` at the point where the stage ends: on a
failure of `pipe` these still are `storage`, what the memory of the object
held before the constructor ran (the members have no initialiser; zero for an
object of static storage duration). -/
def signalfd.open_pipe (os : OS) (storage : Int × Int) (w : World) :
    World × (Int × Int) × Option system_error :=
  let s := sys_pipe os w
  match s.2 with
  | none => (s.1, storage, some (detail.throw_system_error s.1.errno "pipe()"))
  | some p =>
    let w1 : World := { s.1 with m_wfd := p.2 }
    let a := detail.set_file_flags os w1 p.2 (O_NONBLOCK ||| FD_CLOEXEC)
    match a.2 with
    | some e => (a.1, p, some e)
    | none =>
      let b := detail.set_file_flags os a.1 p.1 FD_CLOEXEC
      (b.1, p, b.2)

/-- Lines 68 to 101 of the constructor: builds `act`, clears `m_oldact` and
runs the two loops. -/
def signalfd.install_handlers (os : OS) (S : List Int) (w : World) :
    World × Outcome (List sigaction_t) :=
  let n := signalfd.nsignals S
  let m := signalfd.mask_loop os S n 0 w 0
  match m.2 with
  | none => (m.1, Outcome.abort)
  | some mask =>
    let act : sigaction_t := ⟨Handler.on_signal, mask, SA_SIGINFO⟩
    signalfd.install os S act n 0 (List.replicate n sigaction_t.zero) m.1

/-- Destruction of the members after the constructor body has thrown: `m_w`
first, then `m_r` (reverse order of declaration). -/
def signalfd.unwind (os : OS) (w : World) (fds : Int × Int) : World :=
  fdcloser.dtor os (fdcloser.dtor os w fds.2) fds.1

/-- The constructor `signalfd::signalfd()`. -/
def signalfd.ctor (os : OS) (S : List Int) (storage : Int × Int) (w : World) :
    World × Outcome signalfd :=
  let p := signalfd.open_pipe os storage w
  match p.2.2 with
  | some e => (signalfd.unwind os p.1 p.2.1, Outcome.throw e)
  | none =>
    let h := signalfd.install_handlers os S p.1
    match h.2 with
    | Outcome.ok oldact => (h.1, Outcome.ok ⟨p.2.1.1, p.2.1.2, oldact⟩)
    | Outcome.throw e => (signalfd.unwind os h.1 p.2.1, Outcome.throw e)
    | Outcome.abort => (h.1, Outcome.abort)

/-- The loop of the destructor, from index `i` with `k` rounds to go:
`assert(signals[i] > 0); sigaction(signals[i], &m_oldact[i], 0)`.  The flag is
`false` when an assertion fails. -/
def signalfd.restore_loop (os : OS) (S : List Int) (oldact : List sigaction_t) :
    Nat → Nat → World → World × Bool
  | 0, _, w => (w, true)
  | k + 1, i, w =>
    if assert_passes os (signalfd.signals S i > 0) then
      signalfd.restore_loop os S oldact k (i + 1)
        (sys_sigaction os w (signalfd.signals S i) (oldact.getD i sigaction_t.zero)).1
    else (w, false)

/-- The destructor `signalfd::~signalfd()`: the loop, then the destructors of
`m_w` and `m_r`. -/
def signalfd.dtor (os : OS) (S : List Int) (self : signalfd) (w : World) : World × Outcome Unit :=
  let r := signalfd.restore_loop os S self.m_oldact (signalfd.nsignals S) 0 w
  if r.2 then
    (fdcloser.dtor os (fdcloser.dtor os r.1 self.m_w) self.m_r, Outcome.ok ())
  else (r.1, Outcome.abort)

/-- The member function `signalfd::fd()`. -/
def signalfd.fd (self : signalfd) : Int := self.m_r

/-- The handler `signalfd::on_signal(int, siginfo_t* siginfo, void*)`; `none`
when the `write` does not return. -/
def signalfd.on_signal (os : OS) (_signo : Int) (siginfo : siginfo_t) (w : World) :
    Option World :=
  let save_errno := w.errno
  match sys_write os w w.m_wfd siginfo os.sizeof_siginfo with
  | none => none
  | some s => some { s.1 with errno := save_errno }

/-- Delivery of signal `s` by the kernel.  When the disposition of `s` is the
handler `on_signal` with the flag `SA_SIGINFO` set, the kernel calls it with
the signal number and a `siginfo_t` whose `si_signo` is `s` (`info` gives the
other fields).  Any other disposition is outside this model (`none`). -/
def deliver (os : OS) (s : Int) (info : siginfo_t) (w : World) : Option World :=
  if (w.disp s).sa_handler = Handler.on_signal ∧
      (w.disp s).sa_flags &&& SA_SIGINFO = SA_SIGINFO then
    signalfd.on_signal os s { info with si_signo := s } w
  else none

/-! ## Reading the trace -/

/-- Between `w` and `w1` only calls that succeeded were made. -/
def calls_ok (w w1 : World) : Prop :=
  ∃ evs, w1.trace = w.trace ++ evs ∧ ∀ x ∈ evs, 0 ≤ x.ret

/-- Between `w` and `w1` some call failed, and `e` carries the `errno` and the
name of the first call that did. -/
def first_failed (w w1 : World) (e : system_error) : Prop :=
  ∃ pre c post, w1.trace = w.trace ++ pre ++ c :: post ∧ (∀ x ∈ pre, 0 ≤ x.ret) ∧
    c.ret < 0 ∧ e.code = c.err ∧ e.what = c.call.name

/-- How many of the calls `evs` are `close(fd)`. -/
def close_count (evs : List Event) (fd : Int) : Nat :=
  (evs.filter (fun x => decide (x.call = Syscall.close fd))).length

/-! ## Concrete platforms and states used in the examples -/

/-- A Linux-like platform with a small descriptor limit: 16 descriptors,
signals 1 to 64 except SIGKILL (9) and SIGSTOP (19) accepted by `sigaction`,
which adds `SA_RESTORER` to the flags and takes SIGKILL and SIGSTOP out of the
mask, a 65536 byte pipe, `siginfo_t` of 128 bytes, successful calls leave
`errno` alone, `assert` compiled in. -/
def linux : OS where
  fd_limit := 16
  pipe_fault := none
  fcntl_fault := fun _ _ => none
  sig_ok := fun s => decide (1 ≤ s) && decide (s ≤ 64) && decide (s ≠ 9) && decide (s ≠ 19)
  added_flags := SA_RESTORER
  unblockable := 256 + 262144
  sigset_ok := fun s => decide (1 ≤ s) && decide (s ≤ 64)
  pipe_capacity := 65536
  PIPE_BUF := 4096
  sizeof_siginfo := 128
  clobber := fun e => e
  NDEBUG := false

/-- A process right after start: descriptors 0, 1, 2 open on a terminal, every
disposition the default one. -/
def fresh : World where
  fds := fun fd => if 0 ≤ fd ∧ fd ≤ 2 then some ⟨FdKind.other, 2, 0⟩ else none
  pipes := fun _ => ⟨[], false, false⟩
  npipes := 0
  disp := fun _ => sigaction_t.zero
  errno := 0
  m_wfd := 0
  trace := []

/-- The template argument list: the given arguments, then the default `0` up
to thirty entries. -/
def template_args (given : List Int) : List Int :=
  given ++ List.replicate (30 - given.length) 0


open signalfd

/-! ## Effect of the system calls -/

theorem upd_same {α β : Type} [DecidableEq α] (f : α → β) (k : α) (v : β) : upd f k v k = v := by
  simp [upd]

theorem upd_other {α β : Type} [DecidableEq α] (f : α → β) (k x : α) (v : β) (h : x ≠ k) :
    upd f k v x = f x := by
  simp [upd, h]

theorem sigaction_fds (os : OS) (w : World) (s : Int) (a : sigaction_t) :
    (sys_sigaction os w s a).1.fds = w.fds ∧ (sys_sigaction os w s a).1.pipes = w.pipes ∧
      (sys_sigaction os w s a).1.m_wfd = w.m_wfd ∧ (sys_sigaction os w s a).1.npipes = w.npipes := by
  unfold sys_sigaction
  split <;> simp [World.done]

theorem sigaction_ok (os : OS) (w : World) (s : Int) (a : sigaction_t) (h : os.sig_ok s = true) :
    (sys_sigaction os w s a).1.disp = upd w.disp s (os.stored a) ∧
      (sys_sigaction os w s a).2.1 = 0 ∧
      (sys_sigaction os w s a).2.2 = w.disp s ∧
      (sys_sigaction os w s a).1.trace
        = w.trace ++ [⟨Syscall.sigaction s a, 0, os.clobber w.errno⟩] := by
  simp [sys_sigaction, h, World.done]

theorem sigaction_fail (os : OS) (w : World) (s : Int) (a : sigaction_t)
    (h : os.sig_ok s = false) :
    (sys_sigaction os w s a).1.disp = w.disp ∧ (sys_sigaction os w s a).2.1 = -1 ∧
      (sys_sigaction os w s a).1.errno = EINVAL ∧
      (sys_sigaction os w s a).1.trace = w.trace ++ [⟨Syscall.sigaction s a, -1, EINVAL⟩] := by
  simp [sys_sigaction, h, World.done]

theorem sigaction_neg_iff (os : OS) (w : World) (s : Int) (a : sigaction_t) :
    (sys_sigaction os w s a).2.1 < 0 ↔ os.sig_ok s = false := by
  cases h : os.sig_ok s
  · simp [(sigaction_fail os w s a h).2.1]
  · simp [(sigaction_ok os w s a h).2.1]

theorem sigaction_disp_congr (os : OS) (w w1 : World) (s : Int) (a : sigaction_t)
    (h : w1.disp = w.disp) :
    (sys_sigaction os w1 s a).1.disp = (sys_sigaction os w s a).1.disp := by
  cases hs : os.sig_ok s
  · rw [(sigaction_fail os w1 s a hs).1, (sigaction_fail os w s a hs).1, h]
  · rw [(sigaction_ok os w1 s a hs).1, (sigaction_ok os w s a hs).1, h]

theorem close_disp (os : OS) (w : World) (fd : Int) :
    (sys_close os w fd).1.disp = w.disp ∧ (sys_close os w fd).1.m_wfd = w.m_wfd := by
  unfold sys_close
  split <;> simp [World.done]

theorem close_fds (os : OS) (w : World) (fd : Int) :
    (sys_close os w fd).1.fds = upd w.fds fd none := by
  unfold sys_close
  split
  · rename_i h
    funext x
    by_cases hx : x = fd
    · simp [World.done, upd, hx, h]
    · simp [World.done, upd, hx]
  · simp [World.done]

theorem close_trace (os : OS) (w : World) (fd : Int) :
    (sys_close os w fd).1.trace
      = w.trace ++ [⟨Syscall.close fd, (sys_close os w fd).2, (sys_close os w fd).1.errno⟩] := by
  unfold sys_close
  split <;> simp [World.done]

theorem close_ret (os : OS) (w : World) (fd : Int) (e : FdEntry) (h : w.fds fd = some e) :
    (sys_close os w fd).2 = 0 := by
  simp [sys_close, h]

/-! ## The rollback loop -/

theorem rollback_fds (os : OS) (S : List Int) (old : List sigaction_t) (i : Nat) (w : World) :
    (rollback os S old i w).fds = w.fds ∧ (rollback os S old i w).pipes = w.pipes ∧
      (rollback os S old i w).m_wfd = w.m_wfd := by
  induction i generalizing w with
  | zero => simp [rollback]
  | succ i ih =>
    simp only [rollback]
    obtain ⟨h1, h2, h3⟩ := ih (sys_sigaction os w (signals S i) (old.getD i sigaction_t.zero)).1
    obtain ⟨g1, g2, g3, _⟩ := sigaction_fds os w (signals S i) (old.getD i sigaction_t.zero)
    exact ⟨h1.trans g1, h2.trans g2, h3.trans g3⟩

theorem rollback_disp_congr (os : OS) (S : List Int) (old : List sigaction_t) (i : Nat)
    (w w1 : World) (h : w1.disp = w.disp) :
    (rollback os S old i w1).disp = (rollback os S old i w).disp := by
  induction i generalizing w w1 with
  | zero => simpa [rollback] using h
  | succ i ih =>
    simp only [rollback]
    exact ih _ _ (sigaction_disp_congr os w w1 _ _ h)

theorem rollback_old_congr (os : OS) (S : List Int) (old old1 : List sigaction_t) (i : Nat)
    (w : World) (h : ∀ j, j < i → old1.getD j sigaction_t.zero = old.getD j sigaction_t.zero) :
    rollback os S old1 i w = rollback os S old i w := by
  induction i generalizing w with
  | zero => simp [rollback]
  | succ i ih =>
    simp only [rollback]
    rw [h i (Nat.lt_succ_self i)]
    exact ih _ (fun j hj => h j (Nat.lt_succ_of_lt hj))

theorem rollback_trace (os : OS) (S : List Int) (old : List sigaction_t) (i : Nat) (w : World) :
    ∃ evs, (rollback os S old i w).trace = w.trace ++ evs := by
  induction i generalizing w with
  | zero => exact ⟨[], by simp [rollback]⟩
  | succ i ih =>
    simp only [rollback]
    obtain ⟨evs, h⟩ := ih (sys_sigaction os w (signals S i) (old.getD i sigaction_t.zero)).1
    cases hs : os.sig_ok (signals S i)
    · rw [h, (sigaction_fail os w _ _ hs).2.2.2]
      exact ⟨_, by rw [List.append_assoc]⟩
    · rw [h, (sigaction_ok os w _ _ hs).2.2.2]
      exact ⟨_, by rw [List.append_assoc]⟩

theorem getD_set_same (old : List sigaction_t) (i : Nat) (a : sigaction_t) (h : i < old.length) :
    (old.set i a).getD i sigaction_t.zero = a := by
  simp [List.getD_eq_getElem?_getD, List.getElem?_set, h]

theorem getD_set_other (old : List sigaction_t) (i j : Nat) (a : sigaction_t) (h : j ≠ i) :
    (old.set i a).getD j sigaction_t.zero = old.getD j sigaction_t.zero := by
  simp [List.getD_eq_getElem?_getD, List.getElem?_set, Ne.symm h]


/-! ## The installation loop -/

/-- The rollback loop leaves alone every signal that is not among
`signals[0], ..., signals[i - 1]`. -/
theorem rollback_not_among (os : OS) (S : List Int) (old : List sigaction_t) (i : Nat)
    (w : World) (s : Int) (h : ∀ j, j < i → signals S j ≠ s) :
    (rollback os S old i w).disp s = w.disp s := by
  induction i generalizing w with
  | zero => rfl
  | succ i ih =>
    simp only [rollback]
    rw [ih _ (fun j hj => h j (Nat.lt_succ_of_lt hj))]
    cases hs : os.sig_ok (signals S i)
    · rw [(sigaction_fail os w _ _ hs).1]
    · rw [(sigaction_ok os w _ _ hs).1]
      exact upd_other _ _ _ _ (fun hc => h i (Nat.lt_succ_self i) hc.symm)

/-- The rollback loop over accepted signals gives a signal what `sigaction`
stores for the entry of `m_oldact` at the first index where the signal
occurs: the loop runs downwards, so that entry is written last. -/
theorem rollback_first (os : OS) (S : List Int) (old : List sigaction_t) (i j : Nat)
    (w : World) (hok : ∀ j1, j1 < i → os.sig_ok (signals S j1) = true) (hj : j < i)
    (hfirst : ∀ j1, j1 < j → signals S j1 ≠ signals S j) :
    (rollback os S old i w).disp (signals S j) = os.stored (old.getD j sigaction_t.zero) := by
  induction i generalizing w with
  | zero => omega
  | succ i ih =>
    simp only [rollback]
    by_cases hji : j = i
    · subst hji
      rw [rollback_not_among os S old j _ _ hfirst,
        (sigaction_ok os w _ _ (hok j (Nat.lt_succ_self j))).1, upd_same]
    · exact ih _ (fun j1 h1 => hok j1 (Nat.lt_succ_of_lt h1)) (by omega)

/-- Among the indices below `i` that carry a given signal there is a first
one. -/
theorem first_occurrence (S : List Int) (i j : Nat) (hj : j < i) :
    ∃ j0, j0 < i ∧ signals S j0 = signals S j ∧ ∀ j1, j1 < j0 → signals S j1 ≠ signals S j := by
  induction j using Nat.strong_induction_on with
  | _ j ih =>
    by_cases h : ∃ j1, j1 < j ∧ signals S j1 = signals S j
    · obtain ⟨j1, h1, h2⟩ := h
      obtain ⟨j0, a, b, c⟩ := ih j1 h1 (by omega)
      exact ⟨j0, a, b.trans h2, fun j2 hj2 => by rw [← h2]; exact c j2 hj2⟩
    · exact ⟨j, hj, rfl, fun j1 h1 hc => h ⟨j1, h1, hc⟩⟩

/-- When the installation loop throws: the error is EINVAL of `sigaction()`;
`sigaction` rejected some `signals[kf]` after accepting the entries before it;
the signals not among those entries have the disposition `D` they had at the
start, and each of those entries has what `sigaction` stores for `D`.  The
hypotheses say that the rounds before `i` went this way. -/
theorem install_throw (os : OS) (S : List Int) (act : sigaction_t) (D : Int → sigaction_t)
    (k i : Nat) (old : List sigaction_t) (w : World) (e : system_error)
    (hlen : i + k ≤ old.length)
    (ha : ∀ j, j < i → os.sig_ok (signals S j) = true)
    (hb : ∀ s, (∀ j, j < i → signals S j ≠ s) → w.disp s = D s)
    (hc : ∀ j, j < i → (∀ j1, j1 < j → signals S j1 ≠ signals S j) →
      old.getD j sigaction_t.zero = D (signals S j))
    (h : (install os S act k i old w).2 = Outcome.throw e) :
    e = ⟨EINVAL, "sigaction()"⟩ ∧
      ∃ kf, i ≤ kf ∧ kf < i + k ∧ os.sig_ok (signals S kf) = false ∧
        (∀ j, j < kf → os.sig_ok (signals S j) = true) ∧
        (∀ s, (∀ j, j < kf → signals S j ≠ s) → (install os S act k i old w).1.disp s = D s) ∧
        (∀ j, j < kf → (install os S act k i old w).1.disp (signals S j)
          = os.stored (D (signals S j))) := by
  induction k generalizing i old w with
  | zero => simp [install] at h
  | succ k ih =>
    simp only [install] at h ⊢
    split at h
    · split at h
      · rename_i hneg
        have hs := (sigaction_neg_iff os w _ act).1 hneg
        obtain ⟨hd, _, herr, _⟩ := sigaction_fail os w _ act hs
        rw [if_pos (by assumption), if_pos hneg]
        refine ⟨?_, i, le_refl _, by omega, hs, ha, ?_, ?_⟩
        · simp only [Outcome.throw.injEq] at h
          rw [← h, herr]
          rfl
        · intro s hns
          rw [rollback_not_among os S old i _ s hns, hd]
          exact hb s hns
        · intro j hj
          obtain ⟨j0, a, b, c⟩ := first_occurrence S i j hj
          rw [← b, rollback_first os S old i j0 _ ha a (fun j1 h1 => by rw [b]; exact c j1 h1),
            hc j0 a (fun j1 h1 => by rw [b]; exact c j1 h1)]
      · rename_i hneg
        have hs : os.sig_ok (signals S i) = true := by
          cases hc1 : os.sig_ok (signals S i)
          · exact absurd ((sigaction_neg_iff os w _ act).2 hc1) hneg
          · rfl
        obtain ⟨hd, _, hold, _⟩ := sigaction_ok os w _ act hs
        rw [if_pos (by assumption), if_neg hneg]
        have hi : i < old.length := by omega
        obtain ⟨h1, kf, h2, h3, h4⟩ := ih (i + 1) _ _ (by rw [List.length_set]; omega)
          (fun j hj => by
            by_cases hji : j = i
            · rw [hji]; exact hs
            · exact ha j (by omega))
          (fun s hns => by
            rw [hd, upd_other _ _ _ _ (fun hc1 => hns i (Nat.lt_succ_self i) hc1.symm)]
            exact hb s (fun j hj => hns j (Nat.lt_succ_of_lt hj)))
          (fun j hj hfirst => by
            by_cases hji : j = i
            · subst hji
              rw [getD_set_same old j _ hi, hold]
              exact hb _ hfirst
            · rw [getD_set_other old i j _ hji]
              exact hc j (by omega) hfirst)
          h
        exact ⟨h1, kf, by omega, by omega, h4⟩
    · simp at h

theorem install_ok_step (os : OS) (S : List Int) (act : sigaction_t) (k i : Nat)
    (old old1 : List sigaction_t) (w : World)
    (h : (install os S act (k + 1) i old w).2 = Outcome.ok old1) :
    assert_passes os (signals S i > 0) = true ∧ os.sig_ok (signals S i) = true ∧
      install os S act (k + 1) i old w
        = install os S act k (i + 1) (old.set i (w.disp (signals S i)))
            (sys_sigaction os w (signals S i) act).1 := by
  simp only [install] at h ⊢
  split at h
  · rename_i ha
    split at h
    · simp at h
    · rename_i hneg
      have hs : os.sig_ok (signals S i) = true := by
        cases hc : os.sig_ok (signals S i)
        · exact absurd ((sigaction_neg_iff os w _ act).2 hc) hneg
        · rfl
      refine ⟨ha, hs, ?_⟩
      rw [if_pos ha, if_neg hneg, (sigaction_ok os w _ act hs).2.2.1]
  · simp at h

/-- What a completed installation loop leaves outside the dispositions. -/
theorem install_ok_frame (os : OS) (S : List Int) (act : sigaction_t) (k i : Nat)
    (old old1 : List sigaction_t) (w : World)
    (h : (install os S act k i old w).2 = Outcome.ok old1) :
    (install os S act k i old w).1.fds = w.fds ∧ (install os S act k i old w).1.pipes = w.pipes ∧
      (install os S act k i old w).1.m_wfd = w.m_wfd ∧
      ∃ evs, (install os S act k i old w).1.trace = w.trace ++ evs ∧ ∀ x ∈ evs, 0 ≤ x.ret := by
  induction k generalizing i old w with
  | zero => exact ⟨rfl, rfl, rfl, [], by simp [install], by simp⟩
  | succ k ih =>
    obtain ⟨_, hs, heq⟩ := install_ok_step os S act k i old old1 w h
    rw [heq] at h ⊢
    obtain ⟨h1, h2, h3, evs, h4, h5⟩ := ih _ _ _ h
    obtain ⟨g1, g2, g3, _⟩ := sigaction_fds os w (signals S i) act
    refine ⟨h1.trans g1, h2.trans g2, h3.trans g3,
      (⟨Syscall.sigaction (signals S i) act, 0, os.clobber w.errno⟩ : Event) :: evs, ?_, ?_⟩
    · rw [h4, (sigaction_ok os w _ act hs).2.2.2, List.append_assoc]
      rfl
    · intro x hx
      rcases List.mem_cons.1 hx with hx | hx
      · subst hx
        exact le_refl _
      · exact h5 x hx

/-- The dispositions after a completed installation loop: what `sigaction`
stores for `act` for every visited signal, the old one elsewhere; every
visited signal was accepted. -/
theorem install_ok_disp (os : OS) (S : List Int) (act : sigaction_t) (k i : Nat)
    (old old1 : List sigaction_t) (w : World)
    (h : (install os S act k i old w).2 = Outcome.ok old1) :
    (∀ j, i ≤ j → j < i + k →
        os.sig_ok (signals S j) = true ∧ assert_passes os (signals S j > 0) = true) ∧
      (∀ j, i ≤ j → j < i + k →
        (install os S act k i old w).1.disp (signals S j) = os.stored act) ∧
      (∀ s, (∀ j, i ≤ j → j < i + k → signals S j ≠ s) →
        (install os S act k i old w).1.disp s = w.disp s) := by
  induction k generalizing i old w with
  | zero =>
    refine ⟨fun j h1 h2 => by omega, fun j h1 h2 => by omega, fun s _ => by simp [install]⟩
  | succ k ih =>
    obtain ⟨ha, hs, heq⟩ := install_ok_step os S act k i old old1 w h
    rw [heq] at h ⊢
    obtain ⟨h1, h2, h3⟩ := ih _ _ _ h
    have hd := (sigaction_ok os w _ act hs).1
    refine ⟨?_, ?_, ?_⟩
    · intro j hj1 hj2
      by_cases hji : j = i
      · rw [hji]
        exact ⟨hs, ha⟩
      · exact h1 j (by omega) (by omega)
    · intro j hj1 hj2
      by_cases hex : ∃ j1, i + 1 ≤ j1 ∧ j1 < i + 1 + k ∧ signals S j1 = signals S j
      · obtain ⟨j1, a, b, c⟩ := hex
        rw [← c]
        exact h2 j1 a b
      · rw [h3 _ (fun j1 a b c => hex ⟨j1, a, b, c⟩), hd]
        by_cases hji : j = i
        · rw [hji, upd_same]
        · exact absurd ⟨j, by omega, by omega, rfl⟩ hex
    · intro s hns
      rw [h3 s (fun j a b => hns j (by omega) (by omega)), hd]
      exact upd_other _ _ _ _ (fun hc => hns i (le_refl _) (by omega) hc.symm)

/-- The array `m_oldact` after a completed installation loop: earlier entries
are kept, and when the visited signals are pairwise different entry `j` is the
disposition `signals[j]` had before the loop. -/
theorem install_ok_old (os : OS) (S : List Int) (act : sigaction_t) (k i : Nat)
    (old old1 : List sigaction_t) (w : World) (hlen : i + k ≤ old.length)
    (h : (install os S act k i old w).2 = Outcome.ok old1) :
    old1.length = old.length ∧
      (∀ j, j < i → old1.getD j sigaction_t.zero = old.getD j sigaction_t.zero) ∧
      ((∀ j1 j2, i ≤ j1 → j1 < j2 → j2 < i + k → signals S j1 ≠ signals S j2) →
        ∀ j, i ≤ j → j < i + k → old1.getD j sigaction_t.zero = w.disp (signals S j)) := by
  induction k generalizing i old w with
  | zero =>
    simp only [install, Outcome.ok.injEq] at h
    subst h
    exact ⟨rfl, fun _ _ => rfl, fun _ j h1 h2 => by omega⟩
  | succ k ih =>
    obtain ⟨_, hs, heq⟩ := install_ok_step os S act k i old old1 w h
    rw [heq] at h
    obtain ⟨h1, h2, h3⟩ := ih (i + 1) _ _ (by rw [List.length_set]; omega) h
    have hd := (sigaction_ok os w _ act hs).1
    have hi : i < old.length := by omega
    refine ⟨by rw [h1, List.length_set], ?_, ?_⟩
    · intro j hj
      rw [h2 j (by omega), getD_set_other old i j _ (by omega)]
    · intro hdist j hj1 hj2
      by_cases hji : j = i
      · rw [hji, h2 i (by omega), getD_set_same old i _ hi]
      · rw [h3 (fun a b ha hab hb => hdist a b (by omega) hab (by omega)) j (by omega) (by omega),
          hd]
        exact upd_other _ _ _ _ (fun hc => hdist i j (le_refl _) (by omega) hj2 hc.symm)

/-! ## The restoration loop of the destructor -/

/-- The restoration loop over accepted signals whose saved entries are the
values of a table `D`: it completes, gives every visited signal what
`sigaction` stores for its value in `D`, and leaves the rest of the state
alone. -/
theorem restore_loop_spec (os : OS) (S : List Int) (old : List sigaction_t)
    (D : Int → sigaction_t) (k i : Nat) (w : World)
    (hok : ∀ j, i ≤ j → j < i + k →
      os.sig_ok (signals S j) = true ∧ assert_passes os (signals S j > 0) = true)
    (hold : ∀ j, i ≤ j → j < i + k → old.getD j sigaction_t.zero = D (signals S j)) :
    (restore_loop os S old k i w).2 = true ∧
      (∀ j, i ≤ j → j < i + k → (restore_loop os S old k i w).1.disp (signals S j)
        = os.stored (D (signals S j))) ∧
      (∀ s, (∀ j, i ≤ j → j < i + k → signals S j ≠ s) →
        (restore_loop os S old k i w).1.disp s = w.disp s) ∧
      (restore_loop os S old k i w).1.fds = w.fds ∧
      (restore_loop os S old k i w).1.pipes = w.pipes ∧
      ∃ evs, (restore_loop os S old k i w).1.trace = w.trace ++ evs ∧ evs.length = k ∧
        ∀ x ∈ evs, x.call.name = "sigaction()" := by
  induction k generalizing i w with
  | zero =>
    refine ⟨rfl, fun j h1 h2 => by omega, fun s _ => rfl, rfl, rfl, [], by simp [restore_loop],
      rfl, by simp⟩
  | succ k ih =>
    obtain ⟨hs, ha⟩ := hok i (le_refl _) (by omega)
    simp only [restore_loop, if_pos ha]
    obtain ⟨h1, h2, h3, h4, h5, evs, h6, h7, h8⟩ :=
      ih (i + 1) (sys_sigaction os w (signals S i) (old.getD i sigaction_t.zero)).1
        (fun j a b => hok j (by omega) (by omega)) (fun j a b => hold j (by omega) (by omega))
    obtain ⟨hd, _, _, ht⟩ := sigaction_ok os w _ (old.getD i sigaction_t.zero) hs
    obtain ⟨g1, g2, _, _⟩ := sigaction_fds os w (signals S i) (old.getD i sigaction_t.zero)
    refine ⟨h1, ?_, ?_, h4.trans g1, h5.trans g2,
      (⟨Syscall.sigaction (signals S i) (old.getD i sigaction_t.zero), 0, os.clobber w.errno⟩ :
        Event) :: evs, ?_, by simp [h7], ?_⟩
    · intro j hj1 hj2
      by_cases hex : ∃ j1, i + 1 ≤ j1 ∧ j1 < i + 1 + k ∧ signals S j1 = signals S j
      · obtain ⟨j1, a, b, c⟩ := hex
        rw [← c]
        exact h2 j1 a b
      · rw [h3 _ (fun j1 a b c => hex ⟨j1, a, b, c⟩), hd]
        by_cases hji : j = i
        · rw [hji, upd_same, hold i (le_refl _) (by omega)]
        · exact absurd ⟨j, by omega, by omega, rfl⟩ hex
    · intro s hns
      rw [h3 s (fun j a b => hns j (by omega) (by omega)), hd]
      exact upd_other _ _ _ _ (fun hc => hns i (le_refl _) (by omega) hc.symm)
    · rw [h6, ht, List.append_assoc]
      rfl
    · intro x hx
      rcases List.mem_cons.1 hx with hx | hx
      · subst hx
        rfl
      · exact h8 x hx


/-! ## Traces -/

theorem calls_ok_refl (w w1 : World) (h : w1.trace = w.trace) : calls_ok w w1 :=
  ⟨[], by simp [h], by simp⟩

theorem calls_ok_trans (w w1 w2 : World) (h1 : calls_ok w w1) (h2 : calls_ok w1 w2) :
    calls_ok w w2 := by
  obtain ⟨a, ha, ha1⟩ := h1
  obtain ⟨b, hb, hb1⟩ := h2
  refine ⟨a ++ b, by rw [hb, ha, List.append_assoc], ?_⟩
  intro x hx
  rcases List.mem_append.1 hx with hx | hx
  · exact ha1 x hx
  · exact hb1 x hx

theorem first_failed_after (w w1 w2 : World) (e : system_error) (h1 : calls_ok w w1)
    (h2 : first_failed w1 w2 e) : first_failed w w2 e := by
  obtain ⟨a, ha, ha1⟩ := h1
  obtain ⟨pre, c, post, hb, hpre, hc⟩ := h2
  refine ⟨a ++ pre, c, post, by rw [hb, ha]; simp, ?_, hc⟩
  intro x hx
  rcases List.mem_append.1 hx with hx | hx
  · exact ha1 x hx
  · exact hpre x hx

theorem first_failed_then (w w1 w2 : World) (e : system_error) (h1 : first_failed w w1 e)
    (h2 : ∃ evs, w2.trace = w1.trace ++ evs) : first_failed w w2 e := by
  obtain ⟨pre, c, post, hb, hpre, hc⟩ := h1
  obtain ⟨evs, h⟩ := h2
  exact ⟨pre, c, post ++ evs, by rw [h, hb]; simp, hpre, hc⟩

theorem calls_ok_one (w w1 : World) (c : Syscall) (r err : Int) (hr : 0 ≤ r)
    (h : w1.trace = w.trace ++ [⟨c, r, err⟩]) : calls_ok w w1 := by
  refine ⟨_, h, ?_⟩
  intro x hx
  rw [List.mem_singleton.1 hx]
  exact hr

theorem first_failed_one (w w1 : World) (c : Syscall) (r : Int) (hr : r < 0)
    (h : w1.trace = w.trace ++ [⟨c, r, w1.errno⟩]) :
    first_failed w w1 ⟨w1.errno, c.name⟩ :=
  ⟨[], ⟨c, r, w1.errno⟩, [], by simp [h], by simp, hr, rfl, rfl⟩

/-! ## The calls on descriptors -/

theorem fcntl_frame (os : OS) (w : World) (fd cmd : Int) (arg : Nat) :
    (sys_fcntl os w fd cmd arg).1.disp = w.disp ∧ (sys_fcntl os w fd cmd arg).1.pipes = w.pipes ∧
      (sys_fcntl os w fd cmd arg).1.m_wfd = w.m_wfd ∧
      (sys_fcntl os w fd cmd arg).1.npipes = w.npipes ∧
      (sys_fcntl os w fd cmd arg).1.trace = w.trace ++
        [⟨Syscall.fcntl fd cmd arg, (sys_fcntl os w fd cmd arg).2,
          (sys_fcntl os w fd cmd arg).1.errno⟩] ∧
      ∀ x, ((sys_fcntl os w fd cmd arg).1.fds x).isSome = (w.fds x).isSome := by
  unfold sys_fcntl
  split
  · simp [World.done]
  · split
    · simp [World.done]
    · rename_i e he
      split_ifs <;> simp [World.done, upd] <;> intro x <;> split_ifs with hx <;> simp [hx, he]

theorem fcntl_getfl (os : OS) (w : World) (fd : Int) (arg : Nat)
    (h : ¬ (sys_fcntl os w fd F_GETFL arg).2 < 0) :
    (sys_fcntl os w fd F_GETFL arg).1.fds = w.fds ∧
      ∃ e, w.fds fd = some e ∧ (sys_fcntl os w fd F_GETFL arg).2 = Int.ofNat e.status := by
  unfold sys_fcntl at h ⊢
  split at h
  · simp at h
  · split at h
    · simp at h
    · rename_i hf _ e he
      simp [he, World.done]

theorem fcntl_setfl (os : OS) (w : World) (fd : Int) (arg : Nat) (e : FdEntry)
    (he : w.fds fd = some e) (h : ¬ (sys_fcntl os w fd F_SETFL arg).2 < 0) :
    (sys_fcntl os w fd F_SETFL arg).1.fds = upd w.fds fd (some
      { e with status := (e.status ^^^ (e.status &&& SETFL_MASK)) ||| (arg &&& SETFL_MASK) }) := by
  unfold sys_fcntl at h ⊢
  split at h
  · simp at h
  · rename_i hf
    simp [hf, he, World.done, F_SETFL, F_GETFL]


/-! ## `set_file_flags` -/

theorem set_file_flags_frame (os : OS) (w : World) (fd : Int) (flags : Nat) :
    (detail.set_file_flags os w fd flags).1.disp = w.disp ∧
      (detail.set_file_flags os w fd flags).1.pipes = w.pipes ∧
      (detail.set_file_flags os w fd flags).1.m_wfd = w.m_wfd ∧
      (∀ x, ((detail.set_file_flags os w fd flags).1.fds x).isSome = (w.fds x).isSome) ∧
      ∃ evs, (detail.set_file_flags os w fd flags).1.trace = w.trace ++ evs := by
  obtain ⟨a1, a2, a3, _, a5, a6⟩ := fcntl_frame os w fd F_GETFL 0
  unfold detail.set_file_flags
  simp only
  split_ifs
  · exact ⟨a1, a2, a3, a6, _, a5⟩
  · obtain ⟨b1, b2, b3, _, b5, b6⟩ := fcntl_frame os (sys_fcntl os w fd F_GETFL 0).1 fd F_SETFL
      ((sys_fcntl os w fd F_GETFL 0).2.toNat ||| flags)
    exact ⟨b1.trans a1, b2.trans a2, b3.trans a3, fun x => (b6 x).trans (a6 x), _,
      by rw [b5, a5, List.append_assoc]⟩
  · obtain ⟨b1, b2, b3, _, b5, b6⟩ := fcntl_frame os (sys_fcntl os w fd F_GETFL 0).1 fd F_SETFL
      ((sys_fcntl os w fd F_GETFL 0).2.toNat ||| flags)
    exact ⟨b1.trans a1, b2.trans a2, b3.trans a3, fun x => (b6 x).trans (a6 x), _,
      by rw [b5, a5, List.append_assoc]⟩

/-- A completed `set_file_flags(fd, flags)` made two successful calls and
changed the file status flags of `fd`, nothing else. -/
theorem set_file_flags_none (os : OS) (w : World) (fd : Int) (flags : Nat)
    (h : (detail.set_file_flags os w fd flags).2 = none) :
    calls_ok w (detail.set_file_flags os w fd flags).1 ∧
      ∃ e, w.fds fd = some e ∧ (detail.set_file_flags os w fd flags).1.fds = upd w.fds fd (some
        { e with status := (e.status ^^^ (e.status &&& SETFL_MASK)) |||
            ((e.status ||| flags) &&& SETFL_MASK) }) := by
  obtain ⟨_, _, _, _, a5, _⟩ := fcntl_frame os w fd F_GETFL 0
  obtain ⟨_, _, _, _, b5, _⟩ := fcntl_frame os (sys_fcntl os w fd F_GETFL 0).1 fd F_SETFL
      ((sys_fcntl os w fd F_GETFL 0).2.toNat ||| flags)
  unfold detail.set_file_flags at h ⊢
  simp only at h ⊢
  split_ifs at h with h1 h2
  rw [if_neg h1, if_neg h2]
  obtain ⟨c1, e, c2, c3⟩ := fcntl_getfl os w fd 0 h1
  have he : (sys_fcntl os w fd F_GETFL 0).1.fds fd = some e := by rw [c1, c2]
  refine ⟨?_, e, c2, ?_⟩
  · exact calls_ok_trans _ _ _ (calls_ok_one _ _ _ _ _ (not_lt.1 h1) a5)
      (calls_ok_one _ _ _ _ _ (not_lt.1 h2) b5)
  · rw [fcntl_setfl os _ fd _ e he h2, c1, c3]
    rfl

/-- When `set_file_flags` throws, the error names `fcntl()` and carries the
`errno` of the first `fcntl` call that failed. -/
theorem set_file_flags_some (os : OS) (w : World) (fd : Int) (flags : Nat) (e : system_error)
    (h : (detail.set_file_flags os w fd flags).2 = some e) :
    first_failed w (detail.set_file_flags os w fd flags).1 e := by
  obtain ⟨_, _, _, _, a5, _⟩ := fcntl_frame os w fd F_GETFL 0
  obtain ⟨_, _, _, _, b5, _⟩ := fcntl_frame os (sys_fcntl os w fd F_GETFL 0).1 fd F_SETFL
      ((sys_fcntl os w fd F_GETFL 0).2.toNat ||| flags)
  unfold detail.set_file_flags at h ⊢
  simp only at h ⊢
  split_ifs at h with h1 h2
  · rw [if_pos h1]
    simp only [Option.some.injEq] at h
    rw [← h]
    exact first_failed_one _ _ _ _ h1 a5
  · rw [if_neg h1, if_pos h2]
    simp only [Option.some.injEq] at h
    rw [← h]
    exact first_failed_after _ _ _ _ (calls_ok_one _ _ _ _ _ (not_lt.1 h1) a5)
      (first_failed_one _ _ _ _ h2 b5)

/-! ## `pipe` -/

theorem free_fds_nodup (os : OS) (w : World) : (free_fds os w).Nodup := by
  unfold free_fds
  apply List.Nodup.filter
  apply List.Nodup.map _ (List.nodup_range _)
  intro a b hab
  exact Int.ofNat.inj hab

theorem free_fds_mem (os : OS) (w : World) (fd : Int) (h : fd ∈ free_fds os w) :
    w.fds fd = none := by
  unfold free_fds at h
  simpa using (List.mem_filter.1 h).2

/-- A successful `pipe` returns two different descriptors that were closed, and
makes them the two ends of a new empty pipe. -/
theorem sys_pipe_some (os : OS) (w : World) (p : Int × Int) (h : (sys_pipe os w).2 = some p) :
    p.1 ≠ p.2 ∧ w.fds p.1 = none ∧ w.fds p.2 = none ∧
      (sys_pipe os w).1.fds = upd (upd w.fds p.1 (some ⟨FdKind.pipe_r w.npipes, O_RDONLY, 0⟩))
        p.2 (some ⟨FdKind.pipe_w w.npipes, O_WRONLY, 0⟩) ∧
      (sys_pipe os w).1.pipes = upd w.pipes w.npipes ⟨[], true, true⟩ ∧
      (sys_pipe os w).1.disp = w.disp ∧
      (sys_pipe os w).1.trace = w.trace ++ [⟨Syscall.pipe, 0, os.clobber w.errno⟩] := by
  have hnd := free_fds_nodup os w
  have hmem := free_fds_mem os w
  unfold sys_pipe at h ⊢
  split at h
  · simp at h
  · split at h
    · rename_i r wr rest hf
      simp only [Option.some.injEq] at h
      subst h
      rw [hf] at hnd hmem
      refine ⟨?_, hmem r (by simp), hmem wr (by simp), ?_⟩
      · intro hc
        simp only [List.nodup_cons, List.mem_cons] at hnd
        exact hnd.1 (Or.inl hc)
      · simp [World.done]
    · simp at h

/-- A failed `pipe` changes `errno` and the trace only. -/
theorem sys_pipe_none (os : OS) (w : World) (h : (sys_pipe os w).2 = none) :
    (sys_pipe os w).1.fds = w.fds ∧ (sys_pipe os w).1.disp = w.disp ∧
      (sys_pipe os w).1.trace = w.trace ++ [⟨Syscall.pipe, -1, (sys_pipe os w).1.errno⟩] := by
  unfold sys_pipe at h ⊢
  split at h
  · simp [World.done]
  · split at h
    · simp at h
    · simp [World.done]


/-! ## The pipe stage of the constructor -/

theorem open_pipe_disp (os : OS) (st : Int × Int) (w : World) :
    (open_pipe os st w).1.disp = w.disp := by
  unfold open_pipe
  simp only
  split
  · rename_i h
    exact (sys_pipe_none os w h).2.1
  · rename_i p h
    have hp := (sys_pipe_some os w p h).2.2.2.2.2.1
    split
    · exact (set_file_flags_frame os _ _ _).1.trans hp
    · exact ((set_file_flags_frame os _ _ _).1.trans (set_file_flags_frame os _ _ _).1).trans hp

/-- The state after a completed pipe stage: `m_r.fd` and `m_w.fd` are two
different descriptors that were closed before, now the read end and the
non-blocking write end of a new empty pipe, with no descriptor flag set;
`m_wfd` is the write end. -/
theorem open_pipe_ok (os : OS) (st : Int × Int) (w : World)
    (h : (open_pipe os st w).2.2 = none) :
    (open_pipe os st w).2.1.1 ≠ (open_pipe os st w).2.1.2 ∧
      w.fds (open_pipe os st w).2.1.1 = none ∧ w.fds (open_pipe os st w).2.1.2 = none ∧
      (open_pipe os st w).1.fds
        = upd (upd w.fds (open_pipe os st w).2.1.1 (some ⟨FdKind.pipe_r w.npipes, 0, 0⟩))
            (open_pipe os st w).2.1.2 (some ⟨FdKind.pipe_w w.npipes, 2049, 0⟩) ∧
      (open_pipe os st w).1.pipes = upd w.pipes w.npipes ⟨[], true, true⟩ ∧
      (open_pipe os st w).1.m_wfd = (open_pipe os st w).2.1.2 ∧
      calls_ok w (open_pipe os st w).1 := by
  unfold open_pipe at h ⊢
  simp only at h ⊢
  split at h
  · simp at h
  · rename_i p hp
    obtain ⟨p1, p2, p3, p4, p5, _, p7⟩ := sys_pipe_some os w p hp
    split at h
    · simp at h
    · rename_i ha
      simp only [hp, ha]
      obtain ⟨a1, ea, a2, a3⟩ := set_file_flags_none os _ _ _ ha
      obtain ⟨b1, eb, b2, b3⟩ := set_file_flags_none os _ _ _ h
      obtain ⟨fa1, fa2, fa3, _, _⟩ := set_file_flags_frame os
        ({ (sys_pipe os w).1 with m_wfd := p.2 } : World) p.2 (O_NONBLOCK ||| FD_CLOEXEC)
      obtain ⟨fb1, fb2, fb3, _, _⟩ := set_file_flags_frame os
        (detail.set_file_flags os ({ (sys_pipe os w).1 with m_wfd := p.2 } : World) p.2
          (O_NONBLOCK ||| FD_CLOEXEC)).1 p.1 FD_CLOEXEC
      simp only [p4, upd_same] at a2
      simp only [Option.some.injEq] at a2
      subst a2
      rw [a3] at b2
      simp only [p4] at b2
      rw [upd_other _ _ _ _ p1, upd_other _ _ _ _ p1, upd_same] at b2
      simp only [Option.some.injEq] at b2
      subst b2
      refine ⟨p1, p2, p3, ?_, ?_, ?_, ?_⟩
      · rw [b3, a3]
        simp only [p4]
        funext x
        by_cases h2 : x = p.2
        · subst h2
          simp [upd, p1.symm]
          decide
        · by_cases h1 : x = p.1
          · subst h1
            simp [upd, h2]
            decide
          · simp [upd, h1, h2]
      · rw [fb2, fa2]
        exact p5
      · rw [fb3, fa3]
      · refine calls_ok_trans _ _ _ (calls_ok_one _ _ _ _ _ (le_refl 0) p7) ?_
        exact calls_ok_trans _ _ _ a1 b1

/-- When the pipe stage throws, the error names the first call that failed and
carries its `errno`. -/
theorem open_pipe_fail (os : OS) (st : Int × Int) (w : World) (e : system_error)
    (h : (open_pipe os st w).2.2 = some e) : first_failed w (open_pipe os st w).1 e := by
  unfold open_pipe at h ⊢
  simp only at h ⊢
  split at h
  · rename_i hp
    simp only [hp]
    simp only [Option.some.injEq] at h
    rw [← h]
    have ht := (sys_pipe_none os w hp).2.2
    exact first_failed_one w _ Syscall.pipe (-1) (by decide) ht
  · rename_i p hp
    have p7 := (sys_pipe_some os w p hp).2.2.2.2.2.2
    have hpipe : calls_ok w ({ (sys_pipe os w).1 with m_wfd := p.2 } : World) :=
      calls_ok_one _ _ _ _ _ (le_refl 0) p7
    split at h
    · rename_i ea ha
      simp only [hp, ha]
      simp only [Option.some.injEq] at h
      subst h
      exact first_failed_after _ _ _ _ hpipe (set_file_flags_some os _ _ _ _ ha)
    · rename_i ha
      simp only [hp, ha]
      exact first_failed_after _ _ _ _
        (calls_ok_trans _ _ _ hpipe (set_file_flags_none os _ _ _ ha).1)
        (set_file_flags_some os _ _ _ _ h)


/-! ## The mask loop -/

theorem mask_loop_frame (os : OS) (S : List Int) (k i : Nat) (w : World) (m : Nat) :
    (mask_loop os S k i w m).1.fds = w.fds ∧ (mask_loop os S k i w m).1.pipes = w.pipes ∧
      (mask_loop os S k i w m).1.disp = w.disp ∧ (mask_loop os S k i w m).1.m_wfd = w.m_wfd ∧
      (mask_loop os S k i w m).1.trace = w.trace := by
  induction k generalizing i w m with
  | zero => simp [mask_loop]
  | succ k ih =>
    simp only [mask_loop]
    split_ifs
    · obtain ⟨h1, h2, h3, h4, h5⟩ := ih (i + 1) (sigaddset os w m (signals S i)).1
        (sigaddset os w m (signals S i)).2
      have hs : (sigaddset os w m (signals S i)).1.fds = w.fds ∧
          (sigaddset os w m (signals S i)).1.pipes = w.pipes ∧
          (sigaddset os w m (signals S i)).1.disp = w.disp ∧
          (sigaddset os w m (signals S i)).1.m_wfd = w.m_wfd ∧
          (sigaddset os w m (signals S i)).1.trace = w.trace := by
        unfold sigaddset
        split_ifs <;> simp
      exact ⟨h1.trans hs.1, h2.trans hs.2.1, h3.trans hs.2.2.1, h4.trans hs.2.2.2.1,
        h5.trans hs.2.2.2.2⟩
    · simp

theorem mask_loop_some (os : OS) (S : List Int) (k i : Nat) (w : World) (m : Nat)
    (h : ∀ j, i ≤ j → j < i + k → assert_passes os (signals S j > 0) = true) :
    ∃ mask, (mask_loop os S k i w m).2 = some mask := by
  induction k generalizing i w m with
  | zero => exact ⟨m, rfl⟩
  | succ k ih =>
    simp only [mask_loop, if_pos (h i (le_refl _) (by omega))]
    exact ih _ _ _ (fun j a b => h j (by omega) (by omega))

/-! ## More on the installation loop -/

/-- When the installation loop throws, the error names the first call that
failed and carries its `errno`, whatever the rollback calls did afterwards. -/
theorem install_throw_trace (os : OS) (S : List Int) (act : sigaction_t) (k i : Nat)
    (old : List sigaction_t) (w : World) (e : system_error)
    (h : (install os S act k i old w).2 = Outcome.throw e) :
    first_failed w (install os S act k i old w).1 e := by
  induction k generalizing i old w with
  | zero => simp [install] at h
  | succ k ih =>
    simp only [install] at h ⊢
    split at h
    · rename_i ha
      split at h
      · rename_i hneg
        have hs := (sigaction_neg_iff os w _ act).1 hneg
        obtain ⟨_, hret, herr, ht⟩ := sigaction_fail os w _ act hs
        rw [if_pos ha, if_pos hneg]
        simp only [Outcome.throw.injEq] at h
        rw [← h]
        apply first_failed_then w (sys_sigaction os w (signals S i) act).1 _ _ _
          (rollback_trace os S old i _)
        apply first_failed_one w _ (Syscall.sigaction (signals S i) act) (-1) (by decide)
        rw [ht, herr]
      · rename_i hneg
        have hs : os.sig_ok (signals S i) = true := by
          cases hc : os.sig_ok (signals S i)
          · exact absurd ((sigaction_neg_iff os w _ act).2 hc) hneg
          · rfl
        rw [if_pos ha, if_neg hneg]
        exact first_failed_after _ _ _ _
          (calls_ok_one _ _ _ _ _ (le_refl 0) (sigaction_ok os w _ act hs).2.2.2) (ih _ _ _ h)
    · simp at h

/-- The installation loop throws when it reaches a signal number that
`sigaction` rejects after `d` accepted ones. -/
theorem install_reaches_failure (os : OS) (S : List Int) (act : sigaction_t) (d k i : Nat)
    (old : List sigaction_t) (w : World) (hd : d < k)
    (hassert : ∀ j, i ≤ j → j ≤ i + d → assert_passes os (signals S j > 0) = true)
    (hpre : ∀ j, i ≤ j → j < i + d → os.sig_ok (signals S j) = true)
    (hfail : os.sig_ok (signals S (i + d)) = false) :
    ∃ e, (install os S act k i old w).2 = Outcome.throw e := by
  induction d generalizing k i old w with
  | zero =>
    obtain ⟨k1, rfl⟩ : ∃ k1, k = k1 + 1 := ⟨k - 1, by omega⟩
    simp only [install, if_pos (hassert i (le_refl _) (by omega))]
    rw [if_pos ((sigaction_neg_iff os w _ act).2 (by simpa using hfail))]
    exact ⟨_, rfl⟩
  | succ d ih =>
    obtain ⟨k1, rfl⟩ : ∃ k1, k = k1 + 1 := ⟨k - 1, by omega⟩
    simp only [install, if_pos (hassert i (le_refl _) (by omega))]
    have hs := hpre i (le_refl _) (by omega)
    have hneg : ¬ (sys_sigaction os w (signals S i) act).2.1 < 0 := by
      rw [(sigaction_ok os w _ act hs).2.1]
      decide
    rw [if_neg hneg]
    apply ih k1 (i + 1) _ _ (by omega) (fun j a b => hassert j (by omega) (by omega))
      (fun j a b => hpre j (by omega) (by omega))
    rw [show i + 1 + d = i + (d + 1) by omega]
    exact hfail

/-! ## More on the restoration loop -/

/-- The restoration loop with passing assertions completes, makes one
`sigaction` call per visited signal and touches no descriptor. -/
theorem restore_loop_frame (os : OS) (S : List Int) (old : List sigaction_t) (k i : Nat)
    (w : World) (hok : ∀ j, i ≤ j → j < i + k → assert_passes os (signals S j > 0) = true) :
    (restore_loop os S old k i w).2 = true ∧ (restore_loop os S old k i w).1.fds = w.fds ∧
      (restore_loop os S old k i w).1.pipes = w.pipes ∧
      ∃ evs, (restore_loop os S old k i w).1.trace = w.trace ++ evs ∧ evs.length = k ∧
        ∀ x ∈ evs, x.call.name = "sigaction()" := by
  induction k generalizing i w with
  | zero => exact ⟨rfl, rfl, rfl, [], by simp [restore_loop], rfl, by simp⟩
  | succ k ih =>
    simp only [restore_loop, if_pos (hok i (le_refl _) (by omega))]
    obtain ⟨h1, h4, h5, evs, h6, h7, h8⟩ :=
      ih (i + 1) (sys_sigaction os w (signals S i) (old.getD i sigaction_t.zero)).1
        (fun j a b => hok j (by omega) (by omega))
    obtain ⟨g1, g2, _, _⟩ := sigaction_fds os w (signals S i) (old.getD i sigaction_t.zero)
    have ht : ∃ ev : Event, ev.call.name = "sigaction()" ∧
        (sys_sigaction os w (signals S i) (old.getD i sigaction_t.zero)).1.trace
          = w.trace ++ [ev] := by
      cases hs : os.sig_ok (signals S i)
      · exact ⟨⟨Syscall.sigaction (signals S i) (old.getD i sigaction_t.zero), -1, EINVAL⟩, rfl,
          (sigaction_fail os w _ _ hs).2.2.2⟩
      · exact ⟨⟨Syscall.sigaction (signals S i) (old.getD i sigaction_t.zero), 0,
          os.clobber w.errno⟩, rfl, (sigaction_ok os w _ _ hs).2.2.2⟩
    obtain ⟨ev, hev, ht⟩ := ht
    refine ⟨h1, h4.trans g1, h5.trans g2, ev :: evs, ?_, by simp [h7], ?_⟩
    · rw [h6, ht, List.append_assoc]
      rfl
    · intro x hx
      rcases List.mem_cons.1 hx with hx | hx
      · subst hx
        exact hev
      · exact h8 x hx


/-! ## The constructor as a whole -/

/-- A completed constructor went through the pipe stage, the mask loop and the
installation loop. -/
theorem ctor_ok (os : OS) (S : List Int) (st : Int × Int) (w : World) (obj : signalfd)
    (h : (ctor os S st w).2 = Outcome.ok obj) :
    (open_pipe os st w).2.2 = none ∧ obj.m_r = (open_pipe os st w).2.1.1 ∧
      obj.m_w = (open_pipe os st w).2.1.2 ∧
      ∃ mask, (mask_loop os S (nsignals S) 0 (open_pipe os st w).1 0).2 = some mask ∧
        (ctor os S st w).1 = (install os S ⟨Handler.on_signal, mask, SA_SIGINFO⟩ (nsignals S) 0
          (List.replicate (nsignals S) sigaction_t.zero)
          (mask_loop os S (nsignals S) 0 (open_pipe os st w).1 0).1).1 ∧
        (install os S ⟨Handler.on_signal, mask, SA_SIGINFO⟩ (nsignals S) 0
          (List.replicate (nsignals S) sigaction_t.zero)
          (mask_loop os S (nsignals S) 0 (open_pipe os st w).1 0).1).2
          = Outcome.ok obj.m_oldact := by
  unfold ctor at h ⊢
  simp only at h ⊢
  split at h
  · simp at h
  · rename_i hp
    simp only [hp]
    unfold install_handlers at h ⊢
    simp only at h ⊢
    split at h
    · rename_i oldact hi
      simp only [Outcome.ok.injEq] at h
      subst h
      split at hi
      · simp at hi
      · rename_i mask hm
        simp only [hi, hm]
        exact ⟨trivial, trivial, trivial, mask, rfl, rfl, hi⟩
    · simp at h
    · simp at h


theorem flag_kept (f x : Nat) : (f ||| x) &&& f = f := by
  apply Nat.eq_of_testBit_eq
  intro i
  simp only [Nat.testBit_and, Nat.testBit_or]
  cases f.testBit i <;> cases x.testBit i <;> rfl

/-- What a completed constructor leaves: the state of the pipe stage with the
handler installed for the visited signals. -/
theorem ctor_ok_state (os : OS) (S : List Int) (st : Int × Int) (w : World) (obj : signalfd)
    (h : (ctor os S st w).2 = Outcome.ok obj) :
    obj.m_r ≠ obj.m_w ∧ w.fds obj.m_r = none ∧ w.fds obj.m_w = none ∧
      (ctor os S st w).1.fds
        = upd (upd w.fds obj.m_r (some ⟨FdKind.pipe_r w.npipes, 0, 0⟩))
            obj.m_w (some ⟨FdKind.pipe_w w.npipes, 2049, 0⟩) ∧
      (ctor os S st w).1.pipes = upd w.pipes w.npipes ⟨[], true, true⟩ ∧
      (ctor os S st w).1.m_wfd = obj.m_w ∧
      calls_ok w (ctor os S st w).1 ∧
      (∀ j, j < nsignals S →
        os.sig_ok (signals S j) = true ∧ assert_passes os (signals S j > 0) = true) ∧
      (∀ j, j < nsignals S → ((ctor os S st w).1.disp (signals S j)).sa_handler
          = Handler.on_signal ∧
        ((ctor os S st w).1.disp (signals S j)).sa_flags &&& SA_SIGINFO = SA_SIGINFO) ∧
      (∀ s, (∀ j, j < nsignals S → signals S j ≠ s) → (ctor os S st w).1.disp s = w.disp s) ∧
      ((∀ j1 j2, j1 < j2 → j2 < nsignals S → signals S j1 ≠ signals S j2) →
        ∀ j, j < nsignals S → obj.m_oldact.getD j sigaction_t.zero = w.disp (signals S j)) := by
  obtain ⟨hp, hr, hw, mask, hm, heq, hi⟩ := ctor_ok os S st w obj h
  obtain ⟨p1, p2, p3, p4, p5, p6, p7⟩ := open_pipe_ok os st w hp
  obtain ⟨m1, m2, m3, m4, m5⟩ := mask_loop_frame os S (nsignals S) 0 (open_pipe os st w).1 0
  obtain ⟨f1, f2, f3, f4⟩ := install_ok_frame os S _ _ _ _ _ _ hi
  obtain ⟨d1, d2, d3⟩ := install_ok_disp os S _ _ _ _ _ _ hi
  obtain ⟨_, _, o3⟩ := install_ok_old os S _ _ _ _ _ _ (by simp) hi
  have hdisp : (mask_loop os S (nsignals S) 0 (open_pipe os st w).1 0).1.disp = w.disp :=
    m3.trans (open_pipe_disp os st w)
  rw [hr, hw, heq]
  refine ⟨p1, p2, p3, ?_, ?_, ?_, ?_, ?_, ?_, ?_, ?_⟩
  · rw [f1, m1, p4]
  · rw [f2, m2, p5]
  · rw [f3, m4, p6]
  · exact calls_ok_trans _ _ _ p7 (calls_ok_trans _ _ _ (calls_ok_refl _ _ m5) f4)
  · intro j hj
    exact d1 j (Nat.zero_le _) (by omega)
  · intro j hj
    rw [d2 j (Nat.zero_le _) (by omega)]
    exact ⟨rfl, flag_kept SA_SIGINFO os.added_flags⟩
  · intro s hs
    rw [d3 s (fun j _ hj => hs j (by omega)), hdisp]
  · intro hdist j hj
    rw [o3 (fun a b _ hab hb => hdist a b hab (by omega)) j (Nat.zero_le _) (by omega), hdisp]


/-! ## Construction followed by destruction -/

/-- The handler of a disposition is stored as given. -/
theorem stored_handler (os : OS) (a : sigaction_t) : (os.stored a).sa_handler = a.sa_handler :=
  rfl

/-- What `sigaction` stores is stored unchanged when handed to it again. -/
theorem stored_stored (os : OS) (a : sigaction_t) : os.stored (os.stored a) = os.stored a := by
  have hm : ∀ m u : Nat, (m ^^^ (m &&& u)) ^^^ ((m ^^^ (m &&& u)) &&& u) = m ^^^ (m &&& u) := by
    intro m u
    apply Nat.eq_of_testBit_eq
    intro i
    simp only [Nat.testBit_and, Nat.testBit_xor]
    cases m.testBit i <;> cases u.testBit i <;> rfl
  have hf : ∀ f x : Nat, (f ||| x) ||| x = f ||| x := by
    intro f x
    apply Nat.eq_of_testBit_eq
    intro i
    simp only [Nat.testBit_or]
    cases f.testBit i <;> cases x.testBit i <;> rfl
  unfold OS.stored
  simp only [hm, hf]

/-- C1, as the code has it. For every template argument list whose visited
signal numbers are pairwise different, every platform and every initial state:
when the constructor completes and the destructor runs right after it, the
destructor completes; every signal that is not visited has the disposition it
had before the constructor; every visited signal has the disposition that
`sigaction` stores when it is handed the one from before the constructor.  So
every signal has the handler it had before, and the whole disposition it had
before whenever `sigaction` stores that one unchanged. -/
theorem construct_destroy_restores_as_stored (os : OS) (S : List Int) (st : Int × Int)
    (w : World) (obj : signalfd)
    (hdist : ∀ i j, i < j → j < nsignals S → signals S i ≠ signals S j)
    (hok : (ctor os S st w).2 = Outcome.ok obj) :
    (dtor os S obj (ctor os S st w).1).2 = Outcome.ok () ∧
      (∀ s, (∀ j, j < nsignals S → signals S j ≠ s) →
        (dtor os S obj (ctor os S st w).1).1.disp s = w.disp s) ∧
      (∀ j, j < nsignals S → (dtor os S obj (ctor os S st w).1).1.disp (signals S j)
        = os.stored (w.disp (signals S j))) ∧
      (∀ s, ((dtor os S obj (ctor os S st w).1).1.disp s).sa_handler = (w.disp s).sa_handler) ∧
      (∀ s, os.stored (w.disp s) = w.disp s →
        (dtor os S obj (ctor os S st w).1).1.disp s = w.disp s) := by
  obtain ⟨_, _, _, _, _, _, _, c8, _, c10, c11⟩ := ctor_ok_state os S st w obj hok
  obtain ⟨r1, r2, r3, _, _, _⟩ := restore_loop_spec os S obj.m_oldact w.disp (nsignals S) 0
    (ctor os S st w).1 (fun j _ hj => c8 j (by omega))
    (fun j _ hj => c11 hdist j (by omega))
  have hd : (dtor os S obj (ctor os S st w).1).1.disp
      = (restore_loop os S obj.m_oldact (nsignals S) 0 (ctor os S st w).1).1.disp := by
    unfold dtor
    simp only [r1, if_true]
    unfold fdcloser.dtor
    rw [(close_disp os _ _).1, (close_disp os _ _).1]
  have hout : ∀ s, (∀ j, j < nsignals S → signals S j ≠ s) →
      (dtor os S obj (ctor os S st w).1).1.disp s = w.disp s := by
    intro s hn
    rw [hd, r3 s (fun j _ hj => hn j (by omega))]
    exact c10 s hn
  have hin : ∀ j, j < nsignals S → (dtor os S obj (ctor os S st w).1).1.disp (signals S j)
      = os.stored (w.disp (signals S j)) := by
    intro j hj
    rw [hd]
    exact r2 j (Nat.zero_le _) (by omega)
  refine ⟨?_, hout, hin, ?_, ?_⟩
  · unfold dtor
    simp only [r1, if_true]
  · intro s
    by_cases hs : ∃ j, j < nsignals S ∧ signals S j = s
    · obtain ⟨j, hj, rfl⟩ := hs
      rw [hin j hj]
      rfl
    · rw [hout s (fun j hj hc => hs ⟨j, hj, hc⟩)]
  · intro s hfix
    by_cases hs : ∃ j, j < nsignals S ∧ signals S j = s
    · obtain ⟨j, hj, rfl⟩ := hs
      rw [hin j hj, hfix]
    · exact hout s (fun j hj hc => hs ⟨j, hj, hc⟩)

theorem close_count_two (evs : List Event) (a b r1 r2 e1 e2 : Int) (hab : a ≠ b)
    (h : ∀ x ∈ evs, x.call.name = "sigaction()") :
    close_count (evs ++ [⟨Syscall.close a, r1, e1⟩, ⟨Syscall.close b, r2, e2⟩]) a = 1 ∧
      close_count (evs ++ [⟨Syscall.close a, r1, e1⟩, ⟨Syscall.close b, r2, e2⟩]) b = 1 := by
  have hnil : ∀ fd, evs.filter (fun x => decide (x.call = Syscall.close fd)) = [] := by
    intro fd
    apply List.filter_eq_nil_iff.2
    intro x hx hc
    have hn := h x hx
    rw [of_decide_eq_true hc] at hn
    have hne : ("close()" : String) ≠ "sigaction()" := by decide
    exact hne hn
  unfold close_count
  rw [List.filter_append, List.filter_append, hnil a, hnil b]
  constructor
  · simp [List.filter_cons, Ne.symm hab]
  · simp [List.filter_cons, hab]

/-- C5. For every completed construction, the destructor run right after it
completes, makes its `nsignals` restoring `sigaction` calls first and then
exactly two more calls, `close` of the write end and `close` of the read end of
the pipe made by the constructor, both successful and on different
descriptors, so that each end is closed exactly once; afterwards the open
descriptors are those open before the constructor. -/
theorem destroy_closes_each_end_once (os : OS) (S : List Int) (st : Int × Int) (w : World)
    (obj : signalfd) (hok : (ctor os S st w).2 = Outcome.ok obj) :
    (dtor os S obj (ctor os S st w).1).2 = Outcome.ok () ∧
      obj.m_w ≠ obj.m_r ∧
      (ctor os S st w).1.fds obj.m_r = some ⟨FdKind.pipe_r w.npipes, 0, 0⟩ ∧
      (ctor os S st w).1.fds obj.m_w = some ⟨FdKind.pipe_w w.npipes, 2049, 0⟩ ∧
      (∃ evs e1 e2, (dtor os S obj (ctor os S st w).1).1.trace
          = (ctor os S st w).1.trace ++
              (evs ++ [⟨Syscall.close obj.m_w, 0, e1⟩, ⟨Syscall.close obj.m_r, 0, e2⟩]) ∧
        evs.length = nsignals S ∧ (∀ x ∈ evs, x.call.name = "sigaction()") ∧
        close_count (evs ++ [⟨Syscall.close obj.m_w, 0, e1⟩, ⟨Syscall.close obj.m_r, 0, e2⟩])
          obj.m_w = 1 ∧
        close_count (evs ++ [⟨Syscall.close obj.m_w, 0, e1⟩, ⟨Syscall.close obj.m_r, 0, e2⟩])
          obj.m_r = 1) ∧
      ∀ fd, (dtor os S obj (ctor os S st w).1).1.is_open fd = w.is_open fd := by
  obtain ⟨c1, c2, c3, c4, _, _, _, c8, _, _, _⟩ := ctor_ok_state os S st w obj hok
  obtain ⟨r1, r2, _, evs, r4, r5, r6⟩ := restore_loop_frame os S obj.m_oldact (nsignals S) 0
    (ctor os S st w).1 (fun j _ hj => (c8 j (by omega)).2)
  have hr : (ctor os S st w).1.fds obj.m_r = some ⟨FdKind.pipe_r w.npipes, 0, 0⟩ := by
    rw [c4, upd_other _ _ _ _ c1, upd_same]
  have hw : (ctor os S st w).1.fds obj.m_w = some ⟨FdKind.pipe_w w.npipes, 2049, 0⟩ := by
    rw [c4, upd_same]
  unfold dtor
  simp only [r1, if_true, true_and]
  unfold fdcloser.dtor
  refine ⟨Ne.symm c1, hr, hw, ⟨evs,
    (sys_close os (restore_loop os S obj.m_oldact (nsignals S) 0 (ctor os S st w).1).1
      obj.m_w).1.errno,
    (sys_close os (sys_close os (restore_loop os S obj.m_oldact (nsignals S) 0
      (ctor os S st w).1).1 obj.m_w).1 obj.m_r).1.errno, ?_, r5, r6,
    (close_count_two evs _ _ 0 0 _ _ (Ne.symm c1) r6).1,
    (close_count_two evs _ _ 0 0 _ _ (Ne.symm c1) r6).2⟩, ?_⟩
  · rw [close_trace, close_trace, r4]
    rw [close_ret os _ obj.m_w _ (by rw [r2]; exact hw)]
    rw [close_ret os _ obj.m_r ⟨FdKind.pipe_r w.npipes, 0, 0⟩
      (by rw [close_fds, r2, upd_other _ _ _ _ c1]; exact hr)]
    simp
  · intro fd
    unfold World.is_open
    rw [close_fds, close_fds, r2, c4]
    by_cases h1 : fd = obj.m_r
    · subst h1
      simp [upd, c2]
    · by_cases h2 : fd = obj.m_w
      · subst h2
        simp [upd, c3, h1]
      · simp [upd, h1, h2]

/-- An instance of C1: `signalfd<SIGINT, SIGTERM>` in a process where SIGINT
was set to be ignored through `sigaction` (its flags carry `SA_RESTORER`) and
SIGTERM never was touched: SIGINT ends with the disposition it had, SIGTERM
with the default disposition as `sigaction` stores it. -/
theorem construct_destroy_restores_as_stored_witness :
    (ctor linux (template_args [2, 15]) (0, 0)
        { fresh with disp := upd fresh.disp 2 ⟨Handler.SIG_IGN, 0, SA_RESTORER⟩ }).2
        = Outcome.ok ⟨3, 4, [⟨Handler.SIG_IGN, 0, SA_RESTORER⟩, sigaction_t.zero]⟩ ∧
      (dtor linux (template_args [2, 15])
          ⟨3, 4, [⟨Handler.SIG_IGN, 0, SA_RESTORER⟩, sigaction_t.zero]⟩
          (ctor linux (template_args [2, 15]) (0, 0)
            { fresh with disp := upd fresh.disp 2 ⟨Handler.SIG_IGN, 0, SA_RESTORER⟩ }).1).1.disp 2
        = ⟨Handler.SIG_IGN, 0, SA_RESTORER⟩ ∧
      (dtor linux (template_args [2, 15])
          ⟨3, 4, [⟨Handler.SIG_IGN, 0, SA_RESTORER⟩, sigaction_t.zero]⟩
          (ctor linux (template_args [2, 15]) (0, 0)
            { fresh with disp := upd fresh.disp 2 ⟨Handler.SIG_IGN, 0, SA_RESTORER⟩ }).1).1.disp 15
        = ⟨Handler.SIG_DFL, 0, SA_RESTORER⟩ :=
  ⟨by decide,
    (construct_destroy_restores_as_stored linux (template_args [2, 15]) (0, 0)
      { fresh with disp := upd fresh.disp 2 ⟨Handler.SIG_IGN, 0, SA_RESTORER⟩ }
      ⟨3, 4, [⟨Handler.SIG_IGN, 0, SA_RESTORER⟩, sigaction_t.zero]⟩
      (by
        intro i j hij hj
        have h2 : nsignals (template_args [2, 15]) = 2 := by decide
        rw [h2] at hj
        have hi0 : i = 0 := by omega
        have hj1 : j = 1 := by omega
        subst hi0
        subst hj1
        decide)
      (by decide)).2.2.2.2 2 (by decide),
    (construct_destroy_restores_as_stored linux (template_args [2, 15]) (0, 0)
      { fresh with disp := upd fresh.disp 2 ⟨Handler.SIG_IGN, 0, SA_RESTORER⟩ }
      ⟨3, 4, [⟨Handler.SIG_IGN, 0, SA_RESTORER⟩, sigaction_t.zero]⟩
      (by
        intro i j hij hj
        have h2 : nsignals (template_args [2, 15]) = 2 := by decide
        rw [h2] at hj
        have hi0 : i = 0 := by omega
        have hj1 : j = 1 := by omega
        subst hi0
        subst hj1
        decide)
      (by decide)).2.2.1 1 (by decide)⟩

/-- C1, as stated, fails for `signalfd<SIGINT, SIGTERM>` constructed and
destroyed in a fresh process on a platform whose `sigaction` adds
`SA_RESTORER`: the constructor and the destructor complete, the two signal
numbers are different, and SIGINT ends with flags 67108864 where it had 0. -/
theorem round_trip_flags_counterexample :
    (ctor linux (template_args [2, 15]) (0, 0) fresh).2
        = Outcome.ok ⟨3, 4, [sigaction_t.zero, sigaction_t.zero]⟩ ∧
      visited (template_args [2, 15]) = [2, 15] ∧
      (dtor linux (template_args [2, 15]) ⟨3, 4, [sigaction_t.zero, sigaction_t.zero]⟩
        (ctor linux (template_args [2, 15]) (0, 0) fresh).1).2 = Outcome.ok () ∧
      (dtor linux (template_args [2, 15]) ⟨3, 4, [sigaction_t.zero, sigaction_t.zero]⟩
        (ctor linux (template_args [2, 15]) (0, 0) fresh).1).1.disp 2
        = ⟨Handler.SIG_DFL, 0, 67108864⟩ ∧
      fresh.disp 2 = ⟨Handler.SIG_DFL, 0, 0⟩ ∧
      ¬ ((dtor linux (template_args [2, 15]) ⟨3, 4, [sigaction_t.zero, sigaction_t.zero]⟩
        (ctor linux (template_args [2, 15]) (0, 0) fresh).1).1.disp 2 = fresh.disp 2) := by
  decide

/-- An instance of C5: `signalfd<SIGINT, SIGTERM>` in a fresh process; the
descriptors 3 and 4 of the pipe are closed again after the destructor. -/
theorem destroy_closes_each_end_once_witness :
    (ctor linux (template_args [2, 15]) (0, 0) fresh).2
        = Outcome.ok ⟨3, 4, [sigaction_t.zero, sigaction_t.zero]⟩ ∧
      (dtor linux (template_args [2, 15]) ⟨3, 4, [sigaction_t.zero, sigaction_t.zero]⟩
        (ctor linux (template_args [2, 15]) (0, 0) fresh).1).1.is_open 3 = fresh.is_open 3 ∧
      (dtor linux (template_args [2, 15]) ⟨3, 4, [sigaction_t.zero, sigaction_t.zero]⟩
        (ctor linux (template_args [2, 15]) (0, 0) fresh).1).1.is_open 4 = fresh.is_open 4 :=
  ⟨by decide,
    (destroy_closes_each_end_once linux (template_args [2, 15]) (0, 0) fresh
      ⟨3, 4, [sigaction_t.zero, sigaction_t.zero]⟩ (by decide)).2.2.2.2.2 3,
    (destroy_closes_each_end_once linux (template_args [2, 15]) (0, 0) fresh
      ⟨3, 4, [sigaction_t.zero, sigaction_t.zero]⟩ (by decide)).2.2.2.2.2 4⟩


/-! ## Failed construction -/

theorem unwind_disp (os : OS) (w : World) (p : Int × Int) : (unwind os w p).disp = w.disp := by
  unfold unwind fdcloser.dtor
  rw [(close_disp os _ _).1, (close_disp os _ _).1]

theorem unwind_trace (os : OS) (w : World) (p : Int × Int) :
    ∃ evs, (unwind os w p).trace = w.trace ++ evs := by
  unfold unwind fdcloser.dtor
  rw [close_trace, close_trace, List.append_assoc]
  exact ⟨_, rfl⟩

/-- When lines 68 to 101 of the constructor throw: the error is EINVAL from
`sigaction()` and it is the first call that failed; `sigaction` rejected some
`signals[kf]` after accepting the entries before it; the signals not among
those entries keep their disposition and each of those entries has what
`sigaction` stores for its disposition from before. -/
theorem install_handlers_throw (os : OS) (S : List Int) (w : World) (e : system_error)
    (h : (install_handlers os S w).2 = Outcome.throw e) :
    e = ⟨EINVAL, "sigaction()"⟩ ∧ first_failed w (install_handlers os S w).1 e ∧
      ∃ kf, kf < nsignals S ∧ os.sig_ok (signals S kf) = false ∧
        (∀ j, j < kf → os.sig_ok (signals S j) = true) ∧
        (∀ s, (∀ j, j < kf → signals S j ≠ s) → (install_handlers os S w).1.disp s = w.disp s) ∧
        (∀ j, j < kf → (install_handlers os S w).1.disp (signals S j)
          = os.stored (w.disp (signals S j))) := by
  obtain ⟨_, _, m3, _, m5⟩ := mask_loop_frame os S (nsignals S) 0 w 0
  unfold install_handlers at h ⊢
  simp only at h ⊢
  split at h
  · simp at h
  · rename_i mask hm
    obtain ⟨h1, kf, _, h3, h4⟩ := install_throw os S _ w.disp (nsignals S) 0 _ _ e (by simp)
      (fun j hj => by omega) (fun s _ => by rw [m3]) (fun j hj => by omega) h
    exact ⟨h1, first_failed_after _ _ _ _ (calls_ok_refl _ _ m5)
      (install_throw_trace os S _ _ _ _ _ e h), kf, by omega, h4⟩

/-- C2, as the code has it. For every template argument list (equal entries
allowed), every platform and every initial state in which the constructor gets
as far as the installation loop: when `sigaction` rejects `signals[k]` after
accepting `signals[0], ..., signals[k - 1]`, the constructor throws the error
EINVAL of `sigaction()`; every signal that is not among those `k` entries has
the disposition it had before the constructor ran; each of those entries has
the disposition that `sigaction` stores when it is handed the one from before.
So every signal has the handler it had before, and the whole disposition it
had before whenever `sigaction` stores that one unchanged. -/
theorem failed_install_rolls_back_as_stored (os : OS) (S : List Int) (st : Int × Int)
    (w : World) (k : Nat) (hpipe : (open_pipe os st w).2.2 = none)
    (hassert : ∀ j, j < nsignals S → assert_passes os (signals S j > 0) = true)
    (hk : k < nsignals S) (hpre : ∀ j, j < k → os.sig_ok (signals S j) = true)
    (hfail : os.sig_ok (signals S k) = false) :
    (ctor os S st w).2 = Outcome.throw ⟨EINVAL, "sigaction()"⟩ ∧
      (∀ s, (∀ j, j < k → signals S j ≠ s) → (ctor os S st w).1.disp s = w.disp s) ∧
      (∀ j, j < k → (ctor os S st w).1.disp (signals S j) = os.stored (w.disp (signals S j))) ∧
      (∀ s, ((ctor os S st w).1.disp s).sa_handler = (w.disp s).sa_handler) ∧
      (∀ s, os.stored (w.disp s) = w.disp s → (ctor os S st w).1.disp s = w.disp s) := by
  obtain ⟨mask, hm⟩ := mask_loop_some os S (nsignals S) 0 (open_pipe os st w).1 0
    (fun j _ hj => hassert j (by omega))
  obtain ⟨e, he⟩ := install_reaches_failure os S ⟨Handler.on_signal, mask, SA_SIGINFO⟩ k
    (nsignals S) 0 (List.replicate (nsignals S) sigaction_t.zero)
    (mask_loop os S (nsignals S) 0 (open_pipe os st w).1 0).1 hk
    (fun j _ hj => hassert j (by omega)) (fun j _ hj => hpre j (by omega))
    (by rw [Nat.zero_add]; exact hfail)
  have hih : (install_handlers os S (open_pipe os st w).1).2 = Outcome.throw e := by
    unfold install_handlers
    simp only [hm]
    exact he
  obtain ⟨h1, _, kf, _, k2, k3, k4, k5⟩ := install_handlers_throw os S _ e hih
  have hkf : kf = k := by
    rcases Nat.lt_trichotomy kf k with hlt | heq | hgt
    · rw [hpre kf hlt] at k2
      exact absurd k2 (by simp)
    · exact heq
    · rw [k3 k hgt] at hfail
      exact absurd hfail (by simp)
  subst hkf
  have hd : (ctor os S st w).1.disp = (install_handlers os S (open_pipe os st w).1).1.disp := by
    unfold ctor
    simp only [hpipe, hih]
    rw [unwind_disp]
  have hout : ∀ s, (∀ j, j < kf → signals S j ≠ s) → (ctor os S st w).1.disp s = w.disp s := by
    intro s hn
    rw [hd, k4 s hn, open_pipe_disp]
  have hin : ∀ j, j < kf → (ctor os S st w).1.disp (signals S j)
      = os.stored (w.disp (signals S j)) := by
    intro j hj
    rw [hd, k5 j hj, open_pipe_disp]
  refine ⟨?_, hout, hin, ?_, ?_⟩
  · unfold ctor
    simp only [hpipe, hih]
    rw [h1]
  · intro s
    by_cases hs : ∃ j, j < kf ∧ signals S j = s
    · obtain ⟨j, hj, rfl⟩ := hs
      rw [hin j hj]
      rfl
    · rw [hout s (fun j hj hc => hs ⟨j, hj, hc⟩)]
  · intro s hfix
    by_cases hs : ∃ j, j < kf ∧ signals S j = s
    · obtain ⟨j, hj, rfl⟩ := hs
      rw [hin j hj, hfix]
    · exact hout s (fun j hj hc => hs ⟨j, hj, hc⟩)

/-- An instance of C2: `signalfd<SIGINT, SIGINT, SIGKILL>` in a process where
SIGINT was set to be ignored through `sigaction` (its flags carry
`SA_RESTORER`); `sigaction` accepts SIGINT twice and rejects SIGKILL at index
2, and SIGINT ends with the disposition it had. -/
theorem failed_install_rolls_back_as_stored_witness :
    (open_pipe linux (0, 0)
        { fresh with disp := upd fresh.disp 2 ⟨Handler.SIG_IGN, 0, SA_RESTORER⟩ }).2.2 = none ∧
      2 < nsignals (template_args [2, 2, 9]) ∧
      linux.sig_ok (signals (template_args [2, 2, 9]) 2) = false ∧
      (ctor linux (template_args [2, 2, 9]) (0, 0)
        { fresh with disp := upd fresh.disp 2 ⟨Handler.SIG_IGN, 0, SA_RESTORER⟩ }).2
        = Outcome.throw ⟨EINVAL, "sigaction()"⟩ ∧
      (ctor linux (template_args [2, 2, 9]) (0, 0)
        { fresh with disp := upd fresh.disp 2 ⟨Handler.SIG_IGN, 0, SA_RESTORER⟩ }).1.disp 2
        = ⟨Handler.SIG_IGN, 0, SA_RESTORER⟩ :=
  ⟨by decide, by decide, by decide,
    (failed_install_rolls_back_as_stored linux (template_args [2, 2, 9]) (0, 0)
      { fresh with disp := upd fresh.disp 2 ⟨Handler.SIG_IGN, 0, SA_RESTORER⟩ } 2 (by decide)
      (by
        intro j hj
        have h3 : nsignals (template_args [2, 2, 9]) = 3 := by decide
        rw [h3] at hj
        have hj3 : j = 0 ∨ j = 1 ∨ j = 2 := by omega
        rcases hj3 with rfl | rfl | rfl <;> decide)
      (by decide)
      (by
        intro j hj
        have hj2 : j = 0 ∨ j = 1 := by omega
        rcases hj2 with rfl | rfl <;> decide)
      (by decide)).1,
    (failed_install_rolls_back_as_stored linux (template_args [2, 2, 9]) (0, 0)
      { fresh with disp := upd fresh.disp 2 ⟨Handler.SIG_IGN, 0, SA_RESTORER⟩ } 2 (by decide)
      (by
        intro j hj
        have h3 : nsignals (template_args [2, 2, 9]) = 3 := by decide
        rw [h3] at hj
        have hj3 : j = 0 ∨ j = 1 ∨ j = 2 := by omega
        rcases hj3 with rfl | rfl | rfl <;> decide)
      (by decide)
      (by
        intro j hj
        have hj2 : j = 0 ∨ j = 1 := by omega
        rcases hj2 with rfl | rfl <;> decide)
      (by decide)).2.2.2.2 2 (by decide)⟩

/-- C2, as stated, fails for `signalfd<SIGINT, SIGINT, SIGKILL>` constructed in
a process where SIGINT is ignored with flags 0, on a platform whose
`sigaction` adds `SA_RESTORER`: `sigaction` accepts SIGINT at indices 0 and 1
and rejects SIGKILL at index 2, the constructor throws, and SIGINT is left
ignored with flags 67108864 where it had 0. -/
theorem rollback_flags_counterexample :
    linux.sig_ok (signals (template_args [2, 2, 9]) 0) = true ∧
      linux.sig_ok (signals (template_args [2, 2, 9]) 1) = true ∧
      linux.sig_ok (signals (template_args [2, 2, 9]) 2) = false ∧
      (ctor linux (template_args [2, 2, 9]) (0, 0)
        { fresh with disp := upd fresh.disp 2 ⟨Handler.SIG_IGN, 0, 0⟩ }).2
        = Outcome.throw ⟨EINVAL, "sigaction()"⟩ ∧
      (ctor linux (template_args [2, 2, 9]) (0, 0)
        { fresh with disp := upd fresh.disp 2 ⟨Handler.SIG_IGN, 0, 0⟩ }).1.disp 2
        = ⟨Handler.SIG_IGN, 0, 67108864⟩ ∧
      ¬ ((ctor linux (template_args [2, 2, 9]) (0, 0)
        { fresh with disp := upd fresh.disp 2 ⟨Handler.SIG_IGN, 0, 0⟩ }).1.disp 2
        = upd fresh.disp 2 ⟨Handler.SIG_IGN, 0, 0⟩ 2) := by
  decide

/-! ## The handler -/

/-- C9. For every state in which `m_wfd` is not a blocking descriptor, every
value of `errno` and every outcome of the write: `on_signal` returns, it has
made exactly one call, `write(m_wfd, siginfo, sizeof(siginfo_t))`, `errno` is
what it was on entry although the call set it, a failed write leaves every
pipe as it was, and descriptors, dispositions and `m_wfd` are untouched. -/
theorem on_signal_keeps_errno (os : OS) (w : World) (signo : Int) (info : siginfo_t)
    (hbuf : os.sizeof_siginfo ≤ os.PIPE_BUF)
    (hnb : ∀ e, w.fds w.m_wfd = some e → (e.status &&& O_NONBLOCK != 0) = true) :
    ∃ w1 ret err, on_signal os signo info w = some w1 ∧ w1.errno = w.errno ∧
      w1.trace = w.trace ++ [⟨Syscall.write w.m_wfd os.sizeof_siginfo, ret, err⟩] ∧
      (ret = Int.ofNat os.sizeof_siginfo ∨ ret = -1) ∧
      (ret < 0 → w1.pipes = w.pipes) ∧
      w1.fds = w.fds ∧ w1.disp = w.disp ∧ w1.m_wfd = w.m_wfd := by
  unfold on_signal sys_write
  simp only [not_lt.2 hbuf, if_false]
  cases hfd : w.fds w.m_wfd with
  | none => exact ⟨_, -1, EBADF, rfl, rfl, rfl, Or.inr rfl, fun _ => rfl, rfl, rfl, rfl⟩
  | some e =>
    have hn := hnb e hfd
    cases hk : e.kind with
    | pipe_r id =>
      simp only [hk]
      exact ⟨_, -1, EBADF, rfl, rfl, rfl, Or.inr rfl, fun _ => rfl, rfl, rfl, rfl⟩
    | other =>
      simp only [hk]
      exact ⟨_, Int.ofNat os.sizeof_siginfo, os.clobber w.errno, rfl, rfl, rfl, Or.inl rfl,
        fun hc => absurd hc (by simp), rfl, rfl, rfl⟩
    | pipe_w id =>
      simp only [hk]
      split_ifs with h1 h2
      · exact ⟨_, -1, EPIPE, rfl, rfl, rfl, Or.inr rfl, fun _ => rfl, rfl, rfl, rfl⟩
      · exact ⟨_, Int.ofNat os.sizeof_siginfo, os.clobber w.errno, rfl, rfl, rfl, Or.inl rfl,
          fun hc => absurd hc (by simp), rfl, rfl, rfl⟩
      · exact ⟨_, -1, EAGAIN, rfl, rfl, rfl, Or.inr rfl, fun _ => rfl, rfl, rfl, rfl⟩

/-- The handler on a state where `m_wfd` is the write end of a pipe with a
reader and room for one `siginfo_t`: the record is appended to that pipe. -/
theorem on_signal_appends (os : OS) (w : World) (signo : Int) (info : siginfo_t) (id : Nat)
    (e : FdEntry) (hbuf : os.sizeof_siginfo ≤ os.PIPE_BUF) (hfd : w.fds w.m_wfd = some e)
    (hk : e.kind = FdKind.pipe_w id) (hr : (w.pipes id).reader_open = true)
    (hroom : (w.pipes id).used + os.sizeof_siginfo ≤ os.pipe_capacity) :
    ∃ w1, on_signal os signo info w = some w1 ∧ w1.fds = w.fds ∧ w1.disp = w.disp ∧
      w1.m_wfd = w.m_wfd ∧
      (w1.pipes id).buf = (w.pipes id).buf ++ [⟨os.sizeof_siginfo, info⟩] ∧
      (w1.pipes id).reader_open = true := by
  unfold on_signal sys_write
  simp only [not_lt.2 hbuf, if_false, hfd, hk, hr, hroom, if_true]
  refine ⟨_, rfl, rfl, rfl, rfl, ?_, ?_⟩ <;> simp [World.done, upd]


theorem readable_eq (w : World) (fd : Int) (id a b : Nat)
    (h : w.fds fd = some ⟨FdKind.pipe_r id, a, b⟩) : w.readable fd = (w.pipes id).buf := by
  simp [World.readable, h]

/-- Delivery of a monitored signal to a state whose `m_wfd` is the write end
of pipe `id` with a reader and room: the handler runs and appends one record of
`sizeof(siginfo_t)` bytes carrying the signal number. -/
theorem deliver_appends (os : OS) (w : World) (s : Int) (info : siginfo_t) (id : Nat)
    (e : FdEntry) (hbuf : os.sizeof_siginfo ≤ os.PIPE_BUF)
    (hh : (w.disp s).sa_handler = Handler.on_signal ∧
      (w.disp s).sa_flags &&& SA_SIGINFO = SA_SIGINFO)
    (hfd : w.fds w.m_wfd = some e)
    (hk : e.kind = FdKind.pipe_w id) (hr : (w.pipes id).reader_open = true)
    (hroom : (w.pipes id).used + os.sizeof_siginfo ≤ os.pipe_capacity) :
    ∃ w1, deliver os s info w = some w1 ∧ w1.fds = w.fds ∧ w1.disp = w.disp ∧
      w1.m_wfd = w.m_wfd ∧
      (w1.pipes id).buf = (w.pipes id).buf ++ [⟨os.sizeof_siginfo, { info with si_signo := s }⟩] ∧
      (w1.pipes id).reader_open = true := by
  unfold deliver
  rw [if_pos hh]
  exact on_signal_appends os w s _ id e hbuf hfd hk hr hroom

/-- C3. For every completed construction and every monitored signal
`signals[i]`: the pipe behind `fd()` starts empty; a delivery of the signal
while the pipe has room for one record runs `on_signal`, after which exactly
one record is readable from `fd()`, of `sizeof(siginfo_t)` bytes and with
`si_signo` equal to the signal; two deliveries in a row, with room for two
records, leave the two records readable in delivery order. -/
theorem delivery_appends_one_record (os : OS) (S : List Int) (st : Int × Int) (w : World)
    (obj : signalfd) (hok : (ctor os S st w).2 = Outcome.ok obj)
    (hbuf : os.sizeof_siginfo ≤ os.PIPE_BUF) :
    (ctor os S st w).1.readable obj.fd = [] ∧
      (∀ i info, i < nsignals S → os.sizeof_siginfo ≤ os.pipe_capacity →
        ∃ w2, deliver os (signals S i) info (ctor os S st w).1 = some w2 ∧
          w2.readable obj.fd
            = [⟨os.sizeof_siginfo, { info with si_signo := signals S i }⟩]) ∧
      (∀ i1 i2 info1 info2, i1 < nsignals S → i2 < nsignals S →
        2 * os.sizeof_siginfo ≤ os.pipe_capacity →
        ∃ w2 w3, deliver os (signals S i1) info1 (ctor os S st w).1 = some w2 ∧
          deliver os (signals S i2) info2 w2 = some w3 ∧
          w3.readable obj.fd
            = [⟨os.sizeof_siginfo, { info1 with si_signo := signals S i1 }⟩,
               ⟨os.sizeof_siginfo, { info2 with si_signo := signals S i2 }⟩]) := by
  obtain ⟨c1, _, _, c4, c5, c6, _, _, c9, _, _⟩ := ctor_ok_state os S st w obj hok
  have hr : (ctor os S st w).1.fds obj.m_r = some ⟨FdKind.pipe_r w.npipes, 0, 0⟩ := by
    rw [c4, upd_other _ _ _ _ c1, upd_same]
  have hw : (ctor os S st w).1.fds (ctor os S st w).1.m_wfd
      = some ⟨FdKind.pipe_w w.npipes, 2049, 0⟩ := by
    rw [c6, c4, upd_same]
  have hp : (ctor os S st w).1.pipes w.npipes = ⟨[], true, true⟩ := by
    rw [c5, upd_same]
  have hempty : (ctor os S st w).1.readable obj.fd = [] := by
    unfold signalfd.fd
    rw [readable_eq _ _ _ _ _ hr, hp]
  refine ⟨hempty, ?_, ?_⟩
  · intro i info hi hroom
    obtain ⟨w2, d1, d2, _, _, d5, _⟩ := deliver_appends os (ctor os S st w).1 (signals S i) info
      w.npipes _ hbuf (c9 i hi) hw rfl (by rw [hp]) (by rw [hp]; simpa [Pipe.used] using hroom)
    refine ⟨w2, d1, ?_⟩
    unfold signalfd.fd
    rw [readable_eq w2 _ w.npipes 0 0 (by rw [d2]; exact hr), d5, hp]
    rfl
  · intro i1 i2 info1 info2 hi1 hi2 hroom
    obtain ⟨w2, d1, d2, d3, d4, d5, d6⟩ := deliver_appends os (ctor os S st w).1 (signals S i1)
      info1 w.npipes _ hbuf (c9 i1 hi1) hw rfl (by rw [hp])
      (by rw [hp]; simp only [Pipe.used, List.map_nil, List.sum_nil]; omega)
    rw [hp] at d5
    obtain ⟨w3, e1, e2, _, _, e5, _⟩ := deliver_appends os w2 (signals S i2) info2 w.npipes
      ⟨FdKind.pipe_w w.npipes, 2049, 0⟩ hbuf (by rw [d3]; exact c9 i2 hi2)
      (by rw [d4, d2]; exact hw) rfl d6
      (by rw [Pipe.used, d5]; simp only [List.nil_append, List.map_cons, List.map_nil,
            List.sum_cons, List.sum_nil]; omega)
    refine ⟨w2, w3, d1, e1, ?_⟩
    unfold signalfd.fd
    rw [readable_eq w3 _ w.npipes 0 0 (by rw [e2, d2]; exact hr), e5, d5]
    rfl

/-- An instance of C3: `signalfd<SIGINT, SIGTERM>` in a fresh process, SIGTERM
delivered. -/
theorem delivery_appends_one_record_witness :
    (ctor linux (template_args [2, 15]) (0, 0) fresh).2
        = Outcome.ok ⟨3, 4, [sigaction_t.zero, sigaction_t.zero]⟩ ∧
      ∃ w2, deliver linux 15 ⟨0, 0, 0, []⟩ (ctor linux (template_args [2, 15]) (0, 0) fresh).1
          = some w2 ∧
        w2.readable 3 = [⟨128, ⟨15, 0, 0, []⟩⟩] :=
  ⟨by decide,
    (delivery_appends_one_record linux (template_args [2, 15]) (0, 0) fresh
      ⟨3, 4, [sigaction_t.zero, sigaction_t.zero]⟩ (by decide) (by decide)).2.1 1 ⟨0, 0, 0, []⟩
      (by decide) (by decide)⟩

/-- An instance of C9: the handler of `signalfd<SIGINT>` in a process whose
`errno` is 5. -/
theorem on_signal_keeps_errno_witness :
    ∃ w1 ret err, on_signal linux 2 ⟨2, 0, 0, []⟩
        { (ctor linux (template_args [2]) (0, 0) fresh).1 with errno := 5 } = some w1 ∧
      w1.errno = 5 ∧
      w1.trace = (ctor linux (template_args [2]) (0, 0) fresh).1.trace
        ++ [⟨Syscall.write 4 128, ret, err⟩] ∧
      (ret = Int.ofNat 128 ∨ ret = -1) ∧
      (ret < 0 → w1.pipes = (ctor linux (template_args [2]) (0, 0) fresh).1.pipes) ∧
      w1.fds = (ctor linux (template_args [2]) (0, 0) fresh).1.fds ∧
      w1.disp = (ctor linux (template_args [2]) (0, 0) fresh).1.disp ∧ w1.m_wfd = 4 :=
  on_signal_keeps_errno linux
    { (ctor linux (template_args [2]) (0, 0) fresh).1 with errno := 5 } 2 ⟨2, 0, 0, []⟩
    (by decide)
    (by
      intro e he
      have h4 : ({ (ctor linux (template_args [2]) (0, 0) fresh).1 with errno := 5 } : World).fds
          ({ (ctor linux (template_args [2]) (0, 0) fresh).1 with errno := 5 } : World).m_wfd
          = some ⟨FdKind.pipe_w 0, 2049, 0⟩ := by decide
      rw [h4] at he
      cases he
      decide)


/-! ## The reported error -/

theorem set_file_flags_what (os : OS) (w : World) (fd : Int) (flags : Nat) (e : system_error)
    (h : (detail.set_file_flags os w fd flags).2 = some e) : e.what = "fcntl()" := by
  unfold detail.set_file_flags at h
  simp only at h
  split_ifs at h <;> simp only [Option.some.injEq] at h <;> rw [← h] <;> rfl

theorem open_pipe_what (os : OS) (st : Int × Int) (w : World) (e : system_error)
    (h : (open_pipe os st w).2.2 = some e) : e.what = "pipe()" ∨ e.what = "fcntl()" := by
  unfold open_pipe at h
  simp only at h
  split at h
  · simp only [Option.some.injEq] at h
    rw [← h]
    exact Or.inl rfl
  · split at h
    · rename_i ea ha
      simp only [Option.some.injEq] at h
      subst h
      exact Or.inr (set_file_flags_what os _ _ _ _ ha)
    · exact Or.inr (set_file_flags_what os _ _ _ _ h)

/-- C10. For every construction that fails with an exception: among the calls
the constructor made, the first one that failed has the name the exception
carries and left in `errno` the code the exception carries, whatever the calls
made after it (the rollback `sigaction` calls, the `close` calls) did to
`errno`; that name is `pipe()`, `fcntl()` or `sigaction()`. -/
theorem thrown_error_names_failed_call (os : OS) (S : List Int) (st : Int × Int) (w : World)
    (e : system_error) (h : (ctor os S st w).2 = Outcome.throw e) :
    (∃ pre c post, (ctor os S st w).1.trace = w.trace ++ pre ++ c :: post ∧
        (∀ x ∈ pre, 0 ≤ x.ret) ∧ c.ret < 0 ∧ e.code = c.err ∧ e.what = c.call.name) ∧
      (e.what = "pipe()" ∨ e.what = "fcntl()" ∨ e.what = "sigaction()") := by
  unfold ctor at h ⊢
  simp only at h ⊢
  split at h
  · rename_i e1 hp
    simp only [Outcome.throw.injEq] at h
    subst h
    simp only [hp]
    refine ⟨first_failed_then _ _ _ _ (open_pipe_fail os st w _ hp) (unwind_trace os _ _), ?_⟩
    rcases open_pipe_what os st w _ hp with hw | hw
    · exact Or.inl hw
    · exact Or.inr (Or.inl hw)
  · rename_i hp
    split at h
    · simp at h
    · rename_i e1 hi
      simp only [Outcome.throw.injEq] at h
      subst h
      simp only [hi]
      obtain ⟨h2, h3, _⟩ := install_handlers_throw os S _ _ hi
      refine ⟨first_failed_then _ _ _ _
        (first_failed_after _ _ _ _ (open_pipe_ok os st w hp).2.2.2.2.2.2 h3)
        (unwind_trace os _ _), ?_⟩
      rw [h2]
      exact Or.inr (Or.inr rfl)
    · simp at h

/-- An instance of C10 on a platform whose successful calls reset `errno` to
zero: `signalfd<SIGINT, SIGKILL>` with assertions compiled in. -/
theorem thrown_error_names_failed_call_witness :
    (ctor { linux with clobber := fun _ => 0 } (template_args [2, 9]) (0, 0) fresh).2
        = Outcome.throw ⟨22, "sigaction()"⟩ ∧
      (ctor { linux with clobber := fun _ => 0 } (template_args [2, 9]) (0, 0) fresh).1.errno = 0 ∧
      ∃ pre c post,
        (ctor { linux with clobber := fun _ => 0 } (template_args [2, 9]) (0, 0) fresh).1.trace
          = fresh.trace ++ pre ++ c :: post ∧
        (∀ x ∈ pre, 0 ≤ x.ret) ∧ c.ret < 0 ∧ (22 : Int) = c.err ∧ "sigaction()" = c.call.name :=
  ⟨by decide, by decide,
    (thrown_error_names_failed_call { linux with clobber := fun _ => 0 } (template_args [2, 9])
      (0, 0) fresh ⟨22, "sigaction()"⟩ (by decide)).1⟩


/-! ## The template argument list -/

theorem nsignals_append (A B : List Int) : nsignals (A ++ B) = nsignals A + nsignals B := by
  simp [nsignals]

theorem nsignals_positive (pos : List Int) (h : ∀ s ∈ pos, 0 < s) : nsignals pos = pos.length := by
  induction pos with
  | nil => rfl
  | cons a l ih =>
    have ha : 0 < a := h a (by simp)
    have hl := ih (fun s hs => h s (by simp [hs]))
    simp only [nsignals, List.map_cons, List.sum_cons, List.length_cons] at hl ⊢
    rw [hl, if_pos ha]
    omega

theorem nsignals_zeros (k : Nat) : nsignals (List.replicate k 0) = 0 := by
  induction k with
  | zero => rfl
  | succ k ih =>
    simp only [nsignals, List.replicate_succ, List.map_cons, List.sum_cons] at ih ⊢
    rw [ih]
    rfl

theorem nsignals_count (S : List Int) :
    nsignals S = (S.filter (fun s => decide (0 < s))).length := by
  induction S with
  | nil => rfl
  | cons a l ih =>
    simp only [nsignals, List.map_cons, List.sum_cons] at ih ⊢
    by_cases ha : 0 < a
    · simp [List.filter_cons, ha, ih]
      omega
    · simp [List.filter_cons, ha, ih]

theorem visited_front (pos rest : List Int) :
    (List.range pos.length).map (signals (pos ++ rest)) = pos := by
  apply List.ext_getElem
  · simp
  · intro i h1 h2
    have h3 : i < pos.length := by simpa using h1
    simp [signals, List.getD_eq_getElem?_getD, List.getElem?_append_left h3,
      List.getElem?_eq_getElem h3]

theorem filter_nonzero_padded (pos : List Int) (k : Nat) (h : ∀ s ∈ pos, 0 < s) :
    (pos ++ List.replicate k 0).filter (fun s => decide (s ≠ 0)) = pos := by
  rw [List.filter_append]
  have h1 : pos.filter (fun s => decide (s ≠ 0)) = pos := by
    apply List.filter_eq_self.2
    intro s hs
    have := h s hs
    simp
    omega
  have h2 : (List.replicate k (0 : Int)).filter (fun s => decide (s ≠ 0)) = [] := by
    apply List.filter_eq_nil_iff.2
    intro s hs
    simp [(List.mem_replicate.1 hs).2]
  rw [h1, h2, List.append_nil]

/-- C8, as the code has it. For every template argument list `nsignals` is the
number of positive entries; and when the list is positive entries followed
only by zero padding, `nsignals` is the number of non-zero entries and the
visited signal numbers `signals[0], ..., signals[nsignals - 1]` are exactly the
non-zero entries. -/
theorem trailing_zero_entries_ignored (S pos : List Int) (k : Nat) (hpos : ∀ s ∈ pos, 0 < s) :
    nsignals S = (S.filter (fun s => decide (0 < s))).length ∧
      nsignals (pos ++ List.replicate k 0)
        = ((pos ++ List.replicate k 0).filter (fun s => decide (s ≠ 0))).length ∧
      visited (pos ++ List.replicate k 0)
        = (pos ++ List.replicate k 0).filter (fun s => decide (s ≠ 0)) := by
  have hn : nsignals (pos ++ List.replicate k 0) = pos.length := by
    rw [nsignals_append, nsignals_positive pos hpos, nsignals_zeros]
    rfl
  refine ⟨nsignals_count S, ?_, ?_⟩
  · rw [filter_nonzero_padded pos k hpos, hn]
  · rw [filter_nonzero_padded pos k hpos]
    unfold visited
    rw [hn]
    exact visited_front pos _

/-- An instance of C8: the argument list of `signalfd<SIGINT, SIGTERM>`. -/
theorem trailing_zero_entries_ignored_witness :
    nsignals (template_args [2, 15]) = 2 ∧ visited ([2, 15] ++ List.replicate 28 0) = [2, 15] :=
  ⟨by decide,
    (trailing_zero_entries_ignored (template_args [2, 15]) [2, 15] 28
      (by intro s hs; simp at hs; omega)).2.2⟩

/-- C8, as stated, fails for `signalfd<SIGINT, 0, -3, SIGTERM>`: `nsignals` is
2 although three entries are non-zero, and the visited signal numbers are
`[2, 0]`, not the non-zero entries `[2, -3, 15]`.  The constructor aborts on
`assert(signals[1] > 0)`, and with assertions compiled out it throws because
`sigaction` rejects signal 0. -/
theorem zero_entries_anywhere_counterexample :
    nsignals (template_args [2, 0, -3, 15]) = 2 ∧
      ((template_args [2, 0, -3, 15]).filter (fun s => decide (s ≠ 0))).length = 3 ∧
      visited (template_args [2, 0, -3, 15]) = [2, 0] ∧
      (template_args [2, 0, -3, 15]).filter (fun s => decide (s ≠ 0)) = [2, -3, 15] ∧
      ¬ (nsignals (template_args [2, 0, -3, 15])
            = ((template_args [2, 0, -3, 15]).filter (fun s => decide (s ≠ 0))).length ∧
          visited (template_args [2, 0, -3, 15])
            = (template_args [2, 0, -3, 15]).filter (fun s => decide (s ≠ 0))) ∧
      (ctor linux (template_args [2, 0, -3, 15]) (0, 0) fresh).2 = Outcome.abort ∧
      (ctor { linux with NDEBUG := true } (template_args [2, 0, -3, 15]) (0, 0) fresh).2
        = Outcome.throw ⟨EINVAL, "sigaction()"⟩ := by
  decide

/-! ## Where the code departs from its description -/

/-- C4, the code at a failing input. An object of static storage duration
(both `fd` fields zero) of `signalfd<SIGINT>` is constructed in a process that
has descriptors 0, 1, 2 open and its descriptor limit reached: `pipe` fails
with EMFILE, the constructor throws, and the destructors of `m_w` and `m_r`
call `close(0)`: descriptor 0, open before the attempt, is closed after it. -/
theorem failed_pipe_closes_unrelated_descriptor :
    (ctor { linux with fd_limit := 3 } (template_args [2]) (0, 0) fresh).2
        = Outcome.throw ⟨EMFILE, "pipe()"⟩ ∧
      fresh.is_open 0 = true ∧
      (ctor { linux with fd_limit := 3 } (template_args [2]) (0, 0) fresh).1.is_open 0 = false ∧
      (ctor { linux with fd_limit := 3 } (template_args [2]) (0, 0) fresh).1.trace
        = [⟨Syscall.pipe, -1, EMFILE⟩, ⟨Syscall.close 0, 0, EMFILE⟩,
           ⟨Syscall.close 0, -1, EBADF⟩] := by
  decide

/-- C6, the code at a failing input. After the completed construction of
`signalfd<SIGINT>` in a fresh process the write end (descriptor 4) is
non-blocking, and the close-on-exec flag is set on neither end: `FD_CLOEXEC`
was passed to `F_SETFL`, which does not touch the descriptor flags. -/
theorem close_on_exec_not_set :
    (ctor linux (template_args [2]) (0, 0) fresh).2 = Outcome.ok ⟨3, 4, [sigaction_t.zero]⟩ ∧
      (ctor linux (template_args [2]) (0, 0) fresh).1.nonblocking 4 = true ∧
      (ctor linux (template_args [2]) (0, 0) fresh).1.close_on_exec 4 = false ∧
      (ctor linux (template_args [2]) (0, 0) fresh).1.close_on_exec 3 = false := by
  decide

/-- C7, the code at a failing input. `signalfd<SIGINT, SIGINT>` is constructed
in a fresh process and destroyed: the destructor restores `m_oldact[0]` (the
default) and then `m_oldact[1]` (the handler, saved by the second
installation), so SIGINT is left with the handler `on_signal` while the pipe
is closed; over `signalfd<SIGINT>` SIGINT is back at the default handler it
had before. -/
theorem duplicate_leaves_handler_installed :
    (ctor linux (template_args [2, 2]) (0, 0) fresh).2
        = Outcome.ok ⟨3, 4, [sigaction_t.zero, ⟨Handler.on_signal, 2, 67108868⟩]⟩ ∧
      (dtor linux (template_args [2, 2])
          ⟨3, 4, [sigaction_t.zero, ⟨Handler.on_signal, 2, 67108868⟩]⟩
          (ctor linux (template_args [2, 2]) (0, 0) fresh).1).1.disp 2
        = ⟨Handler.on_signal, 2, 67108868⟩ ∧
      fresh.disp 2 = sigaction_t.zero ∧
      (dtor linux (template_args [2, 2])
          ⟨3, 4, [sigaction_t.zero, ⟨Handler.on_signal, 2, 67108868⟩]⟩
          (ctor linux (template_args [2, 2]) (0, 0) fresh).1).1.is_open 4 = false ∧
      ((dtor linux (template_args [2]) ⟨3, 4, [sigaction_t.zero]⟩
          (ctor linux (template_args [2]) (0, 0) fresh).1).1.disp 2).sa_handler
        = (fresh.disp 2).sa_handler := by
  decide


/-! ## What holds of a failed construction in general -/

theorem install_throw_fds (os : OS) (S : List Int) (act : sigaction_t) (k i : Nat)
    (old : List sigaction_t) (w : World) (e : system_error)
    (h : (install os S act k i old w).2 = Outcome.throw e) :
    (install os S act k i old w).1.fds = w.fds := by
  induction k generalizing i old w with
  | zero => simp [install] at h
  | succ k ih =>
    simp only [install] at h ⊢
    split at h
    · rename_i ha
      split at h
      · rename_i hneg
        rw [if_pos ha, if_pos hneg]
        exact (rollback_fds os S old i _).1.trans (sigaction_fds os w _ act).1
      · rename_i hneg
        rw [if_pos ha, if_neg hneg]
        exact (ih _ _ _ h).trans (sigaction_fds os w _ act).1
    · simp at h

theorem install_handlers_throw_fds (os : OS) (S : List Int) (w : World) (e : system_error)
    (h : (install_handlers os S w).2 = Outcome.throw e) :
    (install_handlers os S w).1.fds = w.fds := by
  obtain ⟨m1, _, _, _, _⟩ := mask_loop_frame os S (nsignals S) 0 w 0
  unfold install_handlers at h ⊢
  simp only at h ⊢
  split at h
  · simp at h
  · exact (install_throw_fds os S _ _ _ _ _ e h).trans m1

theorem unwind_is_open (os : OS) (w : World) (p : Int × Int) (fd : Int) :
    (unwind os w p).is_open fd = (decide (fd ≠ p.1) && decide (fd ≠ p.2) && w.is_open fd) := by
  unfold unwind fdcloser.dtor World.is_open
  rw [close_fds, close_fds]
  by_cases h1 : fd = p.1 <;> by_cases h2 : fd = p.2 <;> simp [upd, h1, h2]

/-- When the pipe stage fails after `pipe` succeeded, `m_r.fd` and `m_w.fd`
are the two new descriptors and no other descriptor was opened or closed. -/
theorem open_pipe_fail_fds (os : OS) (st : Int × Int) (w : World) (e : system_error)
    (p : Int × Int) (hp : (sys_pipe os w).2 = some p)
    (h : (open_pipe os st w).2.2 = some e) :
    (open_pipe os st w).2.1 = p ∧
      ∀ fd, (open_pipe os st w).1.is_open fd
        = (decide (fd = p.1) || decide (fd = p.2) || w.is_open fd) := by
  obtain ⟨_, _, _, p4, _, _, _⟩ := sys_pipe_some os w p hp
  have hfds : ∀ fd, ((sys_pipe os w).1.fds fd).isSome
      = (decide (fd = p.1) || decide (fd = p.2) || (w.fds fd).isSome) := by
    intro fd
    rw [p4]
    by_cases h1 : fd = p.1
    · by_cases h2 : fd = p.2
      · subst h2
        simp [upd]
      · subst h1
        simp [upd, h2]
    · by_cases h2 : fd = p.2 <;> simp [upd, h1, h2]
  unfold open_pipe at h ⊢
  simp only [hp] at h ⊢
  split at h
  · rename_i ea ha
    simp only [ha]
    refine ⟨trivial, fun fd => ?_⟩
    unfold World.is_open
    rw [(set_file_flags_frame os _ _ _).2.2.2.1 fd]
    exact hfds fd
  · rename_i ha
    simp only [ha]
    refine ⟨trivial, fun fd => ?_⟩
    unfold World.is_open
    rw [(set_file_flags_frame os _ _ _).2.2.2.1 fd, (set_file_flags_frame os _ _ _).2.2.2.1 fd]
    exact hfds fd

/-- Every failed construction leaves every signal with the handler it had
before the attempt, and with the whole disposition it had whenever `sigaction`
stores that one unchanged. -/
theorem failed_construction_keeps_handlers (os : OS) (S : List Int) (st : Int × Int)
    (w : World) (e : system_error) (h : (ctor os S st w).2 = Outcome.throw e) :
    ∀ s, ((ctor os S st w).1.disp s).sa_handler = (w.disp s).sa_handler ∧
      (os.stored (w.disp s) = w.disp s → (ctor os S st w).1.disp s = w.disp s) := by
  intro s
  unfold ctor at h ⊢
  simp only at h ⊢
  split at h
  · rename_i e1 hp
    simp only [hp]
    rw [unwind_disp, open_pipe_disp]
    exact ⟨rfl, fun _ => rfl⟩
  · rename_i hp
    split at h
    · simp at h
    · rename_i e1 hi
      simp only [hi]
      obtain ⟨_, _, kf, _, _, _, k4, k5⟩ := install_handlers_throw os S _ _ hi
      rw [unwind_disp]
      by_cases hs : ∃ j, j < kf ∧ signals S j = s
      · obtain ⟨j, hj, rfl⟩ := hs
        rw [k5 j hj, open_pipe_disp]
        exact ⟨rfl, fun hfix => hfix⟩
      · rw [k4 s (fun j hj hc => hs ⟨j, hj, hc⟩), open_pipe_disp]
        exact ⟨rfl, fun _ => rfl⟩
    · simp at h

/-- A construction that fails after `pipe` succeeded (in `fcntl` or in
`sigaction`) leaves the open descriptors as they were before the attempt. -/
theorem failure_after_pipe_keeps_descriptors (os : OS) (S : List Int) (st : Int × Int)
    (w : World) (e : system_error) (p : Int × Int) (hp : (sys_pipe os w).2 = some p)
    (h : (ctor os S st w).2 = Outcome.throw e) :
    ∀ fd, (ctor os S st w).1.is_open fd = w.is_open fd := by
  obtain ⟨_, q2, q3, _⟩ := sys_pipe_some os w p hp
  have hclosed : ∀ fd, fd = p.1 ∨ fd = p.2 → w.is_open fd = false := by
    intro fd hfd
    unfold World.is_open
    rcases hfd with rfl | rfl
    · simp [q2]
    · simp [q3]
  intro fd
  unfold ctor at h ⊢
  simp only at h ⊢
  split at h
  · rename_i e1 hf
    simp only [hf]
    obtain ⟨f1, f2⟩ := open_pipe_fail_fds os st w e1 p hp hf
    rw [unwind_is_open, f1, f2 fd]
    by_cases h1 : fd = p.1
    · simp [h1, hclosed p.1 (Or.inl rfl)]
    · by_cases h2 : fd = p.2
      · simp [h2, hclosed p.2 (Or.inr rfl)]
      · simp [h1, h2]
  · rename_i hf
    split at h
    · simp at h
    · rename_i e1 hi
      simp only [hi]
      obtain ⟨_, o2, o3, o4, _⟩ := open_pipe_ok os st w hf
      rw [unwind_is_open]
      unfold World.is_open
      rw [install_handlers_throw_fds os S _ e1 hi, o4]
      by_cases h1 : fd = (open_pipe os st w).2.1.1
      · simp [h1, o2]
      · by_cases h2 : fd = (open_pipe os st w).2.1.2
        · simp [h2, o3]
        · simp [upd, h1, h2]
    · simp at h

/-- After every completed construction the write end is non-blocking and the
close-on-exec flag is set on neither end of the pipe. -/
theorem completed_construction_descriptor_flags (os : OS) (S : List Int) (st : Int × Int)
    (w : World) (obj : signalfd) (hok : (ctor os S st w).2 = Outcome.ok obj) :
    (ctor os S st w).1.nonblocking obj.m_w = true ∧
      (ctor os S st w).1.close_on_exec obj.m_w = false ∧
      (ctor os S st w).1.close_on_exec obj.m_r = false := by
  obtain ⟨c1, _, _, c4, _⟩ := ctor_ok_state os S st w obj hok
  have hr : (ctor os S st w).1.fds obj.m_r = some ⟨FdKind.pipe_r w.npipes, 0, 0⟩ := by
    rw [c4, upd_other _ _ _ _ c1, upd_same]
  have hw : (ctor os S st w).1.fds obj.m_w = some ⟨FdKind.pipe_w w.npipes, 2049, 0⟩ := by
    rw [c4, upd_same]
  unfold World.nonblocking World.close_on_exec
  rw [hr, hw]
  simp only
  exact ⟨by decide, by decide, by decide⟩

end unixsignal
